import Mathlib

/-!
Verification development for the `imagesize` crate: a shallow embedding of
the header-parsing engine (format dispatch plus per-format size parsers)
and proofs about its behaviour.

Byte streams are modelled as `List Nat` together with an explicit cursor
position; every fallible read returns `Except ImageError`.  Loops in the
source are encoded with an explicit fuel parameter; exhausting the fuel
yields the sentinel error `ImageError.diverge`, which is proved unreachable
for sufficient fuel (this is the termination argument for the parser loops).
-/

set_option maxHeartbeats 1000000

namespace Imagesize

/-- Kinds of `std::io::Error` the parsers construct or propagate. -/
inductive IOKind where
  | unexpectedEof
  | invalidData
  | invalidInput
deriving DecidableEq

/-- `ImageError` from `src/lib.rs` (the `IoError` payload is reduced to its
kind).  `diverge` is an artifact of the fuel encoding of loops: it is the
value returned when fuel runs out, and is proved unreachable below. -/
inductive ImageError where
  | notSupported
  | corruptedImage
  | ioError (k : IOKind)
  | diverge
deriving DecidableEq

/-- `ImageSize` from `src/lib.rs`: width and height in pixels (`usize`). -/
structure ImageSize where
  width : Nat
  height : Nat
deriving DecidableEq

/-- The `#[derive(PartialOrd, Ord)]` ordering on `ImageSize`: Rust derives
field-by-field lexicographic comparison, width first, then height. -/
def ImageSize.cmp (a b : ImageSize) : Ordering :=
  (compare a.width b.width).then (compare a.height b.height)

/-- The strict `<` induced by the derived `Ord` on `ImageSize`. -/
def sizeLt (a b : ImageSize) : Prop := a.cmp b = Ordering.lt

instance (a b : ImageSize) : Decidable (sizeLt a b) := by
  unfold sizeLt; infer_instance

/-- Endianness selector (`Endian` in `src/util.rs` / `src/lib.rs`). -/
inductive Endian where
  | little
  | big

/-- Big-endian value of a byte list. -/
def beVal (l : List Nat) : Nat := l.foldl (fun a b => a * 256 + b) 0

/-- Little-endian value of a byte list. -/
def leVal (l : List Nat) : Nat := l.foldr (fun b a => a * 256 + b) 0

/-- `Read::read_exact` on an in-memory cursor: yields exactly `n` bytes
starting at `pos`, or fails with `UnexpectedEof` when fewer remain. -/
def readExact (d : List Nat) (pos n : Nat) : Except ImageError (List Nat × Nat) :=
  if pos + n ≤ d.length then .ok ((d.drop pos).take n, pos + n)
  else .error (.ioError .unexpectedEof)

/-- `Read::read` on an in-memory cursor: reads `min n (len - pos)` bytes,
never fails.  Returns (bytes, count, new position). -/
def readSome (d : List Nat) (pos n : Nat) : List Nat × Nat × Nat :=
  let cnt := min n (d.length - pos)
  ((d.drop pos).take cnt, cnt, pos + cnt)

/-- `Seek::seek(SeekFrom::Current(delta))`: fails (`InvalidInput`) when the
resulting position would be negative. -/
def seekCur (pos : Nat) (delta : Int) : Except ImageError Nat :=
  if 0 ≤ (pos : Int) + delta then .ok ((pos : Int) + delta).toNat
  else .error (.ioError .invalidInput)

/-- `read_u8` (`src/util.rs` and `src/lib.rs`). -/
def read_u8 (d : List Nat) (pos : Nat) : Except ImageError (Nat × Nat) := do
  let (buf, p) ← readExact d pos 1
  pure (beVal buf, p)

/-- `read_u16` (`src/util.rs` and `src/lib.rs`). -/
def read_u16 (d : List Nat) (pos : Nat) (e : Endian) : Except ImageError (Nat × Nat) := do
  let (buf, p) ← readExact d pos 2
  match e with
  | .little => pure (leVal buf, p)
  | .big => pure (beVal buf, p)

/-- `read_u24` (`src/util.rs` and `src/lib.rs`). -/
def read_u24 (d : List Nat) (pos : Nat) (e : Endian) : Except ImageError (Nat × Nat) := do
  let (buf, p) ← readExact d pos 3
  match e with
  | .little => pure (leVal buf, p)
  | .big => pure (beVal buf, p)

/-- `read_u32` (`src/util.rs` and `src/lib.rs`). -/
def read_u32 (d : List Nat) (pos : Nat) (e : Endian) : Except ImageError (Nat × Nat) := do
  let (buf, p) ← readExact d pos 4
  match e with
  | .little => pure (leVal buf, p)
  | .big => pure (beVal buf, p)

/-- `read_u64` (`src/util.rs`). -/
def read_u64 (d : List Nat) (pos : Nat) (e : Endian) : Except ImageError (Nat × Nat) := do
  let (buf, p) ← readExact d pos 8
  match e with
  | .little => pure (leVal buf, p)
  | .big => pure (beVal buf, p)

/-- `read_bits` (`src/util.rs:61` and `src/lib.rs:714`): extract the
`num_bits`-wide field of the 128-bit accumulator `source` at `offset`,
provided `offset + num_bits < size` (strict).  The Rust body is
`(source >> offset) as usize & ((1 << num_bits) - 1)`; the `as usize`
truncation is the `% 2^64`, and the mask is written for `num_bits < 64`
(the only values callers pass; a wider shift would panic in Rust).
For `offset ≥ 128` the `u128` shift itself overflows: release builds mask
the shift amount to `offset % 128` (modeled here), debug builds panic;
whenever the guard holds with `size ≤ 128` -- `size` is the number of valid
bits of a `u128`, so this covers every meaningful call -- the masked and
plain shifts coincide. -/
def read_bits (source num_bits offset size : Nat) : Except ImageError Nat :=
  if offset + num_bits < size then
    .ok ((source >>> (offset % 128)) % 2 ^ 64 &&& (2 ^ num_bits - 1))
  else
    .error .corruptedImage

/-- `read_tag` (`src/util.rs:70`, identical to `next_tag` in `src/lib.rs:292`):
a big-endian `u32` box size followed by the 4-byte tag.  The tag is kept as
raw bytes; the Rust code converts through `from_utf8_lossy`, and equality of
that string with a 4-character ASCII literal holds exactly when the bytes
match the literal's bytes. -/
def read_tag (d : List Nat) (pos : Nat) : Except ImageError (List Nat × Nat × Nat) := do
  let (size, p) ← read_u32 d pos .big
  let (tagBuf, p2) ← readExact d p 4
  pure (tagBuf, size, p2)

/-- Byte constants of the 4-character ASCII tags compared against. -/
def metaTag : List Nat := [109, 101, 116, 97]
def iprpTag : List Nat := [105, 112, 114, 112]
def ipcoTag : List Nat := [105, 112, 99, 111]
def ispeTag : List Nat := [105, 115, 112, 101]
def irotTag : List Nat := [105, 114, 111, 116]
def jxlcTag : List Nat := [106, 120, 108, 99]
def jxlpTag : List Nat := [106, 120, 108, 112]

/-- The `ipco` child-box scan shared verbatim by `heif_size` in `src/lib.rs`
(the `while let Ok((tag, size)) = next_tag(reader)` loop) and `size` in
`src/container/heif.rs` (the identical `read_tag` loop).  State: the current
maximum-by-area width/height, whether an `ispe` was seen, and the rotation.
A failing `read_tag` exits the `while let`, returning the accumulated state. -/
def ipcoLoop (d : List Nat) :
    Nat → Nat → Nat → Nat → Nat → Bool → Nat → Except ImageError (Nat × Nat × Bool × Nat)
  | 0, _, _, _, _, _, _ => .error .diverge
  | fuel + 1, pos, ipc, mw, mh, found, rot =>
    match read_tag d pos with
    | .error _ => .ok (mw, mh, found, rot)
    | .ok (tag, size, p1) =>
      -- Size of tag length + tag cannot be under 8 (4 bytes each)
      if size < 8 then .error .corruptedImage
      else if tag = ispeTag then do
        -- ispe tag has a junk value followed by width and height as u32
        let (_, p2) ← read_u32 d p1 .big
        let (w, p3) ← read_u32 d p2 .big
        let (h, p4) ← read_u32 d p3 .big
        -- assign new largest size by area
        if w * h > mw * mh then ipcoLoop d fuel p4 ipc w h true rot
        else ipcoLoop d fuel p4 ipc mw mh true rot
      else if tag = irotTag then do
        -- irot is 9 bytes total: size, tag, 1 byte for rotation (0-3)
        let (r, p2) ← read_u8 d p1
        ipcoLoop d fuel p2 ipc mw mh found r
      else if size ≥ ipc then .ok (mw, mh, found, rot)
      else do
        let p2 ← seekCur p1 ((size : Int) - 8)
        ipcoLoop d fuel p2 (ipc - size) mw mh found rot

namespace Lib

/-- `ImageType` from `src/lib.rs:41`. -/
inductive ImageType where
  | bmp
  | gif
  | heif
  | jpeg
  | jxl
  | png
  | psd
  | tiff
  | webp
deriving DecidableEq

/-- `image_type` from `src/lib.rs:76`: magic-number sniffing over a header
slice of arbitrary length. -/
def image_type (h : List Nat) : Except ImageError ImageType :=
  if 2 ≤ h.length then
    if h.take 2 = [0x42, 0x4D] then .ok .bmp
    else if 3 ≤ h.length ∧ h.take 3 = [0xFF, 0xD8, 0xFF] then .ok .jpeg
    else if 4 ≤ h.length ∧ h.take 4 = [0x89, 80, 78, 71] then .ok .png
    else if 4 ≤ h.length ∧ h.take 4 = [71, 73, 70, 56] then .ok .gif
    else if 4 ≤ h.length ∧
        (h.take 4 = [73, 73, 0x2A, 0] ∨ h.take 4 = [77, 77, 0, 0x2A]) then .ok .tiff
    else if 4 ≤ h.length ∧ h.take 4 = [56, 66, 80, 83] then .ok .psd
    else if 8 ≤ h.length ∧ (h.drop 4).take 4 = [102, 116, 121, 112] then .ok .heif
    else if 12 ≤ h.length ∧ h.take 4 = [82, 73, 70, 70] ∧
        (h.drop 8).take 4 = [87, 69, 66, 80] then .ok .webp
    else if (2 ≤ h.length ∧ h.take 2 = [0xFF, 0x0A]) ∨
        (12 ≤ h.length ∧ h.take 12 = [0, 0, 0, 0x0C, 74, 88, 76, 32, 0x0D, 0x0A, 0x87, 0x0A]) then
      .ok .jxl
    else .error .notSupported
  else .error (.ioError .unexpectedEof)

/-- `bmp_size` from `src/lib.rs:205`. -/
def bmp_size (d : List Nat) : Except ImageError ImageSize := do
  let (w, p) ← read_u32 d 0x12 .little
  let (h, _) ← read_u32 d p .little
  pure ⟨w, h⟩

/-- `gif_size` from `src/lib.rs:214`: reads the 12-byte dispatch header. -/
def gif_size (header : List Nat) : Except ImageError ImageSize :=
  .ok ⟨(header.getD 6 0) ||| ((header.getD 7 0) <<< 8),
       (header.getD 8 0) ||| ((header.getD 9 0) <<< 8)⟩

/-- `png_size` from `src/lib.rs:539`. -/
def png_size (d : List Nat) : Except ImageError ImageSize := do
  let (w, p) ← read_u32 d 0x10 .big
  let (h, _) ← read_u32 d p .big
  pure ⟨w, h⟩

/-- `psd_size` from `src/lib.rs:548`: height is stored before width. -/
def psd_size (d : List Nat) : Except ImageError ImageSize := do
  let (h, p) ← read_u32 d 0x0E .big
  let (w, _) ← read_u32 d p .big
  pure ⟨w, h⟩

/-- `skip_to_tag` from `src/lib.rs:300`: walk boxes until `tag` is found;
a box size of 8 or less (after a non-matching tag) is `InvalidData`. -/
def skipToTag (d : List Nat) (tag : List Nat) : Nat → Nat → Except ImageError (Nat × Nat)
  | 0, _ => .error .diverge
  | fuel + 1, pos => do
    let (size, p1) ← read_u32 d pos .big
    let (tagBuf, p2) ← readExact d p1 4
    if tagBuf = tag then pure (size, p2)
    else if size ≤ 8 then .error (.ioError .invalidData)
    else do
      let p3 ← seekCur p2 ((size : Int) - 8)
      skipToTag d tag fuel p3

/-- `heif_size` from `src/lib.rs:221`. -/
def heif_size (d : List Nat) : Except ImageError ImageSize := do
  let fuel := d.length + 1
  -- seek(Start(0)); read the ftyp header size
  let (ftypSize, _) ← read_u32 d 0 .big
  -- jump to the first actual box offset, then skip to meta
  let (_, p1) ← skipToTag d metaTag fuel ftypSize
  let (_, p2) ← read_u32 d p1 .big    -- meta has a junk value after it
  let (_, p3) ← skipToTag d iprpTag fuel p2
  let (ipcoSize, p4) ← skipToTag d ipcoTag fuel p3
  let (mw, mh, found, rot) ← ipcoLoop d fuel p4 ipcoSize 0 0 false 0
  -- if no ispe found, then we have no actual dimension data to use
  if !found then .error (.ioError .unexpectedEof)
  -- 1 and 3 are 90 and 270 degrees: flip width and height
  else if rot = 1 ∨ rot = 3 then pure ⟨mh, mw⟩
  else pure ⟨mw, mh⟩

/-- The `SOFn` test from `src/lib.rs:338`: valid dimension-bearing
Start-Of-Frame markers (C4, C8 and CC are excluded). -/
def is_sof (page : Nat) : Prop :=
  (0xC0 ≤ page ∧ page ≤ 0xC3) ∨ (0xC5 ≤ page ∧ page ≤ 0xC7) ∨
  (0xC9 ≤ page ∧ page ≤ 0xCB) ∨ (0xCD ≤ page ∧ page ≤ 0xCF)

instance (page : Nat) : Decidable (is_sof page) := by
  unfold is_sof; infer_instance

/-- The marker-scan loop of `jpeg_size` (`src/lib.rs:326`).  Returns the
position of the height field (after the `seek(Current(3))` at the break).
The source decrements `depth` and tests `< 0` inside the `0xD9` arm only;
since `0xD8`/`0xD9` are the only markers that change `depth`, folding the
update into one expression before the test is the same function.  `depth`
is an `i32` in the source and an unbounded `Int` here: the two agree as
long as the counter stays within `i32`, which holds whenever the number of
`0xD8` markers scanned is at most `i32::MAX`; `jpegLoopChecked` below keeps
the `i32` bound faithful and exhibits the divergence past it. -/
def jpegLoop (d : List Nat) : Nat → Nat → Int → Except ImageError Nat
  | 0, _, _ => .error .diverge
  | fuel + 1, pos, depth => do
    let (marker, p1) ← readExact d pos 2
    if marker.headD 0 ≠ 0xFF then .error .corruptedImage
    else
      let page := marker.getD 1 0
      if is_sof page ∧ depth = 0 then
        -- correct marker: go forward 3 bytes to the height offset
        seekCur p1 3
      else
        let depth := if page = 0xD8 then depth + 1
          else if page = 0xD9 then depth - 1
          else depth
        if depth < 0 then .error .corruptedImage
        else do
          -- read the marker length and skip over it entirely
          let (pageSize, p2) ← read_u16 d p1 .big
          let p3 ← seekCur p2 ((pageSize : Int) - 2)
          jpegLoop d fuel p3 depth

/-- `jpeg_size` from `src/lib.rs:319`: scan starts at offset 2, depth 0. -/
def jpeg_size (d : List Nat) : Except ImageError ImageSize := do
  let hpos ← jpegLoop d (d.length + 1) 2 0
  let (height, p1) ← read_u16 d hpos .big
  let (width, _) ← read_u16 d p1 .big
  pure ⟨width, height⟩

/-- The marker-scan loop with the `depth` counter kept faithful to its
`i32` type (`let mut depth = 0i32`, `src/lib.rs:321`): `depth += 1` in the
`0xD8` arm is `i32` arithmetic, so incrementing past `i32::MAX = 2147483647`
panics under Rust's overflow checks (release builds wrap to `i32::MIN`
instead; either way the counter leaves the mathematical integers that
`jpegLoop` uses).  The panic is modeled as `none`, every normal outcome as
`some`.  The `0xD9` decrement cannot underflow: the loop returns as soon as
`depth` goes negative, so `depth ≥ -1 > i32::MIN` throughout. -/
def jpegLoopChecked (d : List Nat) : Nat → Nat → Int → Option (Except ImageError Nat)
  | 0, _, _ => some (.error .diverge)
  | fuel + 1, pos, depth =>
    match readExact d pos 2 with
    | .error e => some (.error e)
    | .ok (marker, p1) =>
      if marker.headD 0 ≠ 0xFF then some (.error .corruptedImage)
      else
        let page := marker.getD 1 0
        if is_sof page ∧ depth = 0 then some (seekCur p1 3)
        else if page = 0xD8 ∧ depth = 2147483647 then none
        else
          let depth := if page = 0xD8 then depth + 1
            else if page = 0xD9 then depth - 1
            else depth
          if depth < 0 then some (.error .corruptedImage)
          else
            match read_u16 d p1 .big with
            | .error e => some (.error e)
            | .ok (pageSize, p2) =>
              match seekCur p2 ((pageSize : Int) - 2) with
              | .error e => some (.error e)
              | .ok p3 => jpegLoopChecked d fuel p3 depth

/-- `jpeg_size` running the `i32`-checked marker scan: `none` models the
overflow panic of the depth counter. -/
def jpeg_sizeChecked (d : List Nat) : Option (Except ImageError ImageSize) :=
  match jpegLoopChecked d (d.length + 1) 2 0 with
  | none => none
  | some (.error e) => some (.error e)
  | some (.ok hpos) =>
    some (do
      let (height, p1) ← read_u16 d hpos .big
      let (width, _) ← read_u16 d p1 .big
      pure ⟨width, height⟩)

/-- The IFD entry loop of the classic-TIFF `tiff_size` (`src/lib.rs:590`),
iterated `ifd_count` times; running out of entries without both dimensions
is the `InvalidData` "No dimensions in IFD tags" error. -/
def tiffLoop (d : List Nat) (e : Endian) :
    Nat → Nat → Option Nat → Option Nat → Except ImageError ImageSize
  | 0, _, _, _ => .error (.ioError .invalidData)
  | n + 1, pos, width, height => do
    let (tag, p1) ← read_u16 d pos e
    let (width, height, p4) ←
      if tag = 0x100 then do
        -- skip the type/count since we just need the value
        let p2 ← seekCur p1 6
        let (w, p3) ← read_u32 d p2 e
        pure (some w, height, p3)
      else if tag = 0x101 then do
        let p2 ← seekCur p1 6
        let (h, p3) ← read_u32 d p2 e
        pure (width, some h, p3)
      else do
        let (kind, p2) ← read_u16 d p1 e
        let (count, p3) ← read_u32 d p2 e
        let skipCount : Int ←
          match kind with
          | 1 | 2 => pure (count : Int)    -- Byte | ASCII
          | 3 => pure ((count : Int) * 2)  -- Short
          | 4 => pure ((count : Int) * 4)  -- Long
          | 5 => pure ((count : Int) * 8)  -- Rational
          | _ => .error (.ioError .invalidData)
        let p4 ← seekCur p3 skipCount
        pure (width, height, p4)
    match width, height with
    | some w, some h => pure ⟨w, h⟩
    | _, _ => tiffLoop d e n p4 width height

/-- `tiff_size` from `src/lib.rs:557` (classic TIFF only). -/
def tiff_size (d : List Nat) : Except ImageError ImageSize := do
  let (em, _) ← readExact d 0 2
  let e ←
    if em = [73, 73] then pure Endian.little
    else if em = [77, 77] then pure Endian.big
    else .error (.ioError .invalidData)
  -- seek(Start(4)); read the IFD offset, which cannot be 0
  let (ifdOffset, _) ← read_u32 d 4 e
  if ifdOffset = 0 then .error (.ioError .invalidData)
  else do
    let (ifdCount, p1) ← read_u16 d ifdOffset e
    tiffLoop d e ifdCount p1 none none

/-- `webp_vp8x_size` from `src/lib.rs:649`: 24-bit little-endian, plus one. -/
def webp_vp8x_size (d : List Nat) : Except ImageError ImageSize := do
  let (w, p) ← read_u24 d 0x18 .little
  let (h, _) ← read_u24 d p .little
  pure ⟨w + 1, h + 1⟩

/-- `webp_vp8l_size` from `src/lib.rs:658`: two 14-bit fields, plus one. -/
def webp_vp8l_size (d : List Nat) : Except ImageError ImageSize := do
  let (dims, _) ← read_u32 d 0x15 .little
  pure ⟨(dims &&& 0x3FFF) + 1, ((dims >>> 14) &&& 0x3FFF) + 1⟩

/-- `webp_vp8_size` from `src/lib.rs:669`. -/
def webp_vp8_size (d : List Nat) : Except ImageError ImageSize := do
  let (w, p) ← read_u16 d 0x1A .little
  let (h, _) ← read_u16 d p .little
  pure ⟨w, h⟩

/-- `webp_size` from `src/lib.rs:634`: the cursor sits right after the
12-byte dispatch header, so the 4 discriminator bytes are at offset 12. -/
def webp_size (d : List Nat) : Except ImageError ImageSize := do
  let (buffer, _) ← readExact d 12 4
  let b3 := buffer.getD 3 0
  if b3 = 32 then webp_vp8_size d        -- b' '
  else if b3 = 76 then webp_vp8l_size d  -- b'L'
  else if b3 = 88 then webp_vp8x_size d  -- b'X'
  else .error (.ioError .invalidData)

/-- `write` into a fixed 16-byte buffer at offset `i` (used by `jxl_size`
for `file_header[i..read_end]`). -/
def writeAt (buf : List Nat) (i : Nat) (bs : List Nat) : List Nat :=
  buf.take i ++ bs ++ buf.drop (i + bs.length)

/-- The `let box_size = match box_size { 1 => ..., _ => ... }` step of the
`jxl_size` box loop: a declared size of 1 means the real size follows as an
8-byte big-endian integer. -/
def readBoxSize (d : List Nat) (p1 sizeRaw : Nat) : Except ImageError (Nat × Nat) :=
  if sizeRaw = 1 then do
    let (bs, p) ← readExact d p1 8
    pure (beVal bs, p)
  else pure (sizeRaw, p1)

/-- The box-scan loop of `jxl_size` (`src/lib.rs:380`), accumulating the
up-to-16-byte codestream header from `jxlc`/`jxlp` boxes. -/
def jxlLoop (d : List Nat) : Nat → Nat → List Nat → Nat → Except ImageError (List Nat × Nat)
  | 0, _, _, _ => .error .diverge
  | fuel + 1, pos, fileHeader, headerSize => do
    let (boxType, sizeRaw, p1) ← read_tag d pos
    let boxStart := pos       -- stream_position() - 8
    let (boxSize, p2) ← readBoxSize d p1 sizeRaw
    -- box_start.checked_add(box_size) on u64
    if boxStart + boxSize ≥ 2 ^ 64 then .error .corruptedImage
    else
      let boxEnd := boxStart + boxSize
      let boxHeaderSize := p2 - boxStart
      if boxSize < boxHeaderSize ∧ boxSize ≠ 0 then .error (.ioError .invalidData)
      else if boxType = jxlcTag then
        -- the jxlc box must contain the complete codestream
        let readEnd := if boxSize = 0 then 16 else min (boxSize - boxHeaderSize) 16
        let (bs, cnt, _) := readSome d p2 readEnd
        pure (writeAt fileHeader 0 bs, cnt)
      else if boxType = jxlpTag then do
        -- or it could be stored as part of multiple jxlp boxes
        let (jxlpIndex, p3) ← readExact d p2 4
        if boxSize ≠ 0 ∧ boxSize - boxHeaderSize < 4 then .error (.ioError .invalidData)
        else
          let readEnd := if boxSize = 0 then 16 - headerSize
            else min (boxSize - boxHeaderSize - 4) (16 - headerSize) + headerSize
          if readEnd < headerSize then .error (.ioError .invalidData)
          else
            let (bs, cnt, _) := readSome d p3 (readEnd - headerSize)
            let fileHeader := writeAt fileHeader headerSize bs
            let headerSize := headerSize + cnt
            -- high bit of jxlp_index marks the final jxlp box
            if headerSize = 16 ∨ (jxlpIndex.headD 0) &&& 0x80 ≠ 0 then
              pure (fileHeader, headerSize)
            else if boxSize = 0 then pure (fileHeader, headerSize)
            else jxlLoop d fuel boxEnd fileHeader headerSize
      else if boxSize = 0 then pure (fileHeader, headerSize)
      else jxlLoop d fuel boxEnd fileHeader headerSize

/-- The `(height_bits, height_offset, height_shift)` selection of
`jxl_size` (`src/lib.rs:472`). -/
def heightLayout (isSmall : Bool) (sel : Nat) : Nat × Nat × Nat :=
  match isSmall, sel with
  | true, _ => (5, 17, 3)
  | false, 0 => (9, 19, 0)
  | false, 1 => (13, 19, 0)
  | false, 2 => (18, 19, 0)
  | false, 3 => (30, 19, 0)
  | false, _ => (0, 0, 0)

/-- The `(width_bits, width_offset, width_shift)` selection of `jxl_size`
(`src/lib.rs:490`). -/
def widthLayout (isSmall : Bool) (sel heightBits heightOffset : Nat) : Nat × Nat × Nat :=
  match isSmall, sel with
  | true, _ => (5, 25, 3)
  | false, 0 => (9, heightBits + heightOffset + 5, 0)
  | false, 1 => (13, heightBits + heightOffset + 5, 0)
  | false, 2 => (18, heightBits + heightOffset + 5, 0)
  | false, 3 => (30, heightBits + heightOffset + 5, 0)
  | false, _ => (0, 0, 0)

/-- The `let width = match ratio { ... }` step of `jxl_size`
(`src/lib.rs:499`): ratios 1-7 derive the width from the height by a fixed
aspect ratio; ratio 0 (or anything else) reads an explicit width field. -/
def jxlWidth (source size ratio widthBits widthOffset widthShift height : Nat) :
    Except ImageError Nat :=
  match ratio with
  | 1 => pure height               -- 1:1
  | 2 => pure (height / 10 * 12)   -- 12:10
  | 3 => pure (height / 3 * 4)     -- 4:3
  | 4 => pure (height / 2 * 3)     -- 3:2
  | 5 => pure (height / 9 * 16)    -- 16:9
  | 6 => pure (height / 4 * 5)     -- 5:4
  | 7 => pure (height * 2)         -- 2:1
  | _ => do
    let w0 ← read_bits source widthBits widthOffset size
    pure ((w0 + 1) <<< widthShift)

/-- The orientation extraction of `jxl_size` (`src/lib.rs:518`): a set
"all default metadata" bit means orientation 0; otherwise an "extra fields"
bit gates a 3-bit orientation code. -/
def jxlOrientation (source size metadataOffset : Nat) : Except ImageError Nat := do
  let allDefaultBit ← read_bits source 1 metadataOffset size
  if allDefaultBit != 0 then pure 0
  else do
    let extraBit ← read_bits source 1 (metadataOffset + 1) size
    if extraBit != 0 then read_bits source 3 (metadataOffset + 2) size
    else pure 0

/-- The bit-packed codestream-header decoding of `jxl_size`
(`src/lib.rs:451-537`), starting from the assembled 16-byte buffer. -/
def jxlParse (fileHeader : List Nat) (headerSize : Nat) : Except ImageError ImageSize := do
  if headerSize < 2 then .error .corruptedImage
  else if fileHeader.take 2 ≠ [0xFF, 0x0A] then .error (.ioError .invalidData)
  else do
    let source := leVal fileHeader      -- u128::from_le_bytes
    let size := 8 * headerSize
    let isSmallBit ← read_bits source 1 16 size
    let isSmall := isSmallBit != 0
    let heightSelector ← read_bits source 2 17 size
    let hl := heightLayout isSmall heightSelector
    let h0 ← read_bits source hl.1 hl.2.1 size
    let height := (h0 + 1) <<< hl.2.2
    let ratio ← read_bits source 3 (hl.1 + hl.2.1) size
    let widthSelector ← read_bits source 2 (hl.1 + hl.2.1 + 3) 128
    let wl := widthLayout isSmall widthSelector hl.1 hl.2.1
    let width ← jxlWidth source size ratio wl.1 wl.2.1 wl.2.2 height
    let metadataOffset := if ratio = 0 then wl.1 + wl.2.1 else hl.1 + hl.2.1 + 3
    let orientation ← jxlOrientation source size metadataOffset
    -- orientation >= 4 means transposed
    if orientation < 4 then pure ⟨width, height⟩
    else pure ⟨height, width⟩

/-- `jxl_size` from `src/lib.rs:366`. -/
def jxl_size (d : List Nat) : Except ImageError ImageSize := do
  let (sig, p1) ← readExact d 0 2
  if sig = [0xFF, 0x0A] then
    -- raw codestream: read the remaining header bytes directly
    let (bs, cnt, _) := readSome d p1 14
    let fileHeader := writeAt (sig ++ List.replicate 14 0) 2 bs
    jxlParse fileHeader (cnt + 2)
  else do
    -- container format: scan boxes from offset 12
    let fileHeader := writeAt (List.replicate 16 0) 0 sig
    let (fh, hs) ← jxlLoop d (d.length + 1) 12 fileHeader 0
    jxlParse fh hs

/-- `dispatch_header` from `src/lib.rs:191`. -/
def dispatch_header (d : List Nat) (header : List Nat) : Except ImageError ImageSize := do
  match ← image_type header with
  | .bmp => bmp_size d
  | .gif => gif_size header
  | .heif => heif_size d
  | .jpeg => jpeg_size d
  | .jxl => jxl_size d
  | .png => png_size d
  | .psd => psd_size d
  | .tiff => tiff_size d
  | .webp => webp_size d

/-- `blob_size` from `src/lib.rs:177`: read the 12-byte header window, then
dispatch (`size` for files does the same after loading from disk). -/
def blob_size (d : List Nat) : Except ImageError ImageSize := do
  let (header, _) ← readExact d 0 12
  dispatch_header d header

end Lib

namespace Tiff

/-- The TIFF variant selector from `src/formats/tiff.rs:7`. -/
inductive TiffType where
  | tiff
  | bigTiff
deriving DecidableEq

/-- The IFD entry loop of `size` in `src/formats/tiff.rs:87`, iterated
`ifd_count` times.  Each entry is tag, type, count, then a value-or-offset
field of 4 (classic) or 8 (BigTIFF) bytes read through a `take` handle that
must be filled completely. -/
def entryLoop (d : List Nat) (e : Endian) (t : TiffType) :
    Nat → Nat → Option Nat → Option Nat → Except ImageError ImageSize
  | 0, _, _, _ => .error (.ioError .invalidData)
  | n + 1, pos, width, height => do
    let (tag, p1) ← read_u16 d pos e
    let (kind, p2) ← read_u16 d p1 e
    let (_count, p3) ←
      if t = .tiff then read_u32 d p2 e
      else read_u64 d p2 e
    let valueBytes ←
      match kind with
      | 1 | 2 | 6 | 7 => pure 1          -- BYTE | ASCII | SBYTE | UNDEFINED
      | 3 | 8 => pure 2                  -- SHORT | SSHORT
      | 4 | 9 | 11 | 13 => pure 4        -- LONG | SLONG | FLOAT | IFD
      | 5 | 10 => pure (4 * 2)           -- RATIONAL | SRATIONAL
      | 12 => pure 8                     -- DOUBLE
      | 16 | 17 | 18 =>                  -- BigTiff only: LONG8 | SLONG8 | IFD8
        if t = .tiff then .error (.ioError .invalidData)
        else pure 8
      | _ => .error (.ioError .invalidData)
    let ifdValueLength := if t = .tiff then 4 else 8
    let (bs, loaded, p4) := readSome d p3 ifdValueLength
    if loaded ≠ ifdValueLength then .error (.ioError .invalidData)
    else do
      -- value_buffer is an 8-byte zeroed array with `loaded` bytes filled
      let valueBuffer := bs ++ List.replicate (8 - ifdValueLength) 0
      let value : Option Nat ←
        match valueBytes with
        | 2 => do let (v, _) ← read_u16 valueBuffer 0 e; pure (some v)
        | 4 => do let (v, _) ← read_u32 valueBuffer 0 e; pure (some v)
        | _ => pure none
      let (width, height) :=
        if tag = 0x100 then (value, height)
        else if tag = 0x101 then (width, value)
        else (width, height)
      match width, height with
      | some w, some h => pure ⟨w, h⟩
      | _, _ => entryLoop d e t n p4 width height

/-- `size` from `src/formats/tiff.rs:12` (classic TIFF and BigTIFF). -/
def size (d : List Nat) : Except ImageError ImageSize := do
  let (em, _) ← readExact d 0 2
  let e ←
    if em = [73, 73] then pure Endian.little
    else if em = [77, 77] then pure Endian.big
    else .error (.ioError .invalidData)
  let (typeMarker, p1) ← read_u16 d 2 e
  let t ←
    if typeMarker = 42 then pure TiffType.tiff
    else if typeMarker = 43 then pure TiffType.bigTiff
    else .error (.ioError .invalidData)
  let p2 ←
    if t = .bigTiff then do
      -- BigTIFF header additions: constants 8 and 0
      let (offsetBytesize, pa) ← read_u16 d p1 e
      if offsetBytesize ≠ 8 then .error (.ioError .invalidData)
      else do
        let (extraField, pb) ← read_u16 d pa e
        if extraField ≠ 0 then .error (.ioError .invalidData)
        else pure pb
    else pure p1
  let (ifdOffset, _) ←
    if t = .tiff then read_u32 d p2 e
    else read_u64 d p2 e
  if ifdOffset = 0 then .error (.ioError .invalidData)
  else do
    let (ifdCount, p3) ←
      if t = .tiff then read_u16 d ifdOffset e
      else read_u64 d ifdOffset e
    entryLoop d e t ifdCount p3 none none

/-- `matches` from `src/formats/tiff.rs:167` (`matches` is a Lean keyword).  `header[2]` / `header[3]` are
indexed without a bounds check, guarded only by the `starts_with` tests, so
the result is `Option Bool`: `none` models the out-of-bounds panic, and the
short-circuiting of `&&` / `||` is preserved. -/
def matchesHdr (h : List Nat) : Option Bool :=
  let left : Option Bool :=
    if h.take 2 = [73, 73] then do
      let b2 ← h[2]?
      if b2 = 0x2A ∨ b2 = 0x2B then do
        let b3 ← h[3]?
        pure (decide (b3 = 0))
      else pure false
    else pure false
  match left with
  | none => none
  | some true => some true
  | some false =>
    if h.take 3 = [77, 77, 0] then do
      let b3 ← h[3]?
      pure (decide (b3 = 0x2A ∨ b3 = 0x2B))
    else pure false

end Tiff

namespace Gif

/-- `matches` from `src/formats/gif.rs:10`: `header.starts_with(b"GIF8")`,
total on slices of every length. -/
def matchesHdr (h : List Nat) : Bool := h.take 4 == [71, 73, 70, 56]

end Gif

namespace Heif

/-- `Compression` from `src/container/heif.rs:9`. -/
inductive Compression where
  | av1
  | hevc
  | jpeg
  | unknown
deriving DecidableEq

/-- `skip_to_tag` from `src/container/heif.rs:176`: identical to the one in
`src/lib.rs` except that a non-matching box of size exactly 8 is skipped
(zero-byte seek) instead of rejected. -/
def skipToTag (d : List Nat) (tag : List Nat) : Nat → Nat → Except ImageError (Nat × Nat)
  | 0, _ => .error .diverge
  | fuel + 1, pos => do
    let (size, p1) ← read_u32 d pos .big
    let (tagBuf, p2) ← readExact d p1 4
    if tagBuf = tag then pure (size, p2)
    else if 8 ≤ size then do
      let p3 ← seekCur p2 ((size : Int) - 8)
      skipToTag d tag fuel p3
    else .error (.ioError .invalidData)

/-- `size` from `src/container/heif.rs:20`: same structure as `heif_size`
in `src/lib.rs` (the `ipco` scan is the shared `ipcoLoop`). -/
def size (d : List Nat) : Except ImageError ImageSize := do
  let fuel := d.length + 1
  let (ftypSize, _) ← read_u32 d 0 .big
  let (_, p1) ← skipToTag d metaTag fuel ftypSize
  let (_, p2) ← read_u32 d p1 .big
  let (_, p3) ← skipToTag d iprpTag fuel p2
  let (ipcoSize, p4) ← skipToTag d ipcoTag fuel p3
  let (mw, mh, found, rot) ← ipcoLoop d fuel p4 ipcoSize 0 0 false 0
  if !found then .error (.ioError .unexpectedEof)
  else if rot = 1 ∨ rot = 3 then pure ⟨mh, mw⟩
  else pure ⟨mw, mh⟩

/-- HEVC-family brands from `inner_matches` (`src/container/heif.rs:140`). -/
def hevcBrands : List (List Nat) :=
  [[104, 101, 105, 99], [104, 101, 105, 120], [104, 101, 105, 115], [104, 101, 118, 115],
   [104, 101, 105, 109], [104, 101, 118, 109], [104, 101, 118, 99], [104, 101, 118, 120]]

/-- AV1-family brands (`avif`, `avio`, `avis`, `MA1A`, `MA1B`). -/
def av1Brands : List (List Nat) :=
  [[97, 118, 105, 102], [97, 118, 105, 111], [97, 118, 105, 115],
   [77, 65, 49, 65], [77, 65, 49, 66]]

/-- JPEG-family brands (`jpeg`, `jpgs`). -/
def jpegBrands : List (List Nat) := [[106, 112, 101, 103], [106, 112, 103, 115]]

/-- The structural brands `mif1`, `msf1`, `mif2`, `miaf` that say nothing
about the codec (`src/container/heif.rs:105`). -/
def structuralBrands : List (List Nat) :=
  [[109, 105, 102, 49], [109, 115, 102, 49], [109, 105, 102, 50], [109, 105, 97, 102]]

/-- `inner_matches` from `src/container/heif.rs:136`. -/
def inner_matches (brand : List Nat) : Option Compression :=
  if brand ∈ hevcBrands then some .hevc
  else if brand ∈ av1Brands then some .av1
  else if brand ∈ jpegBrands then some .jpeg
  else none

/-- `matches` from `src/container/heif.rs:92`.  `d`/`pos` model the reader,
positioned right after the 12-byte dispatch header; a failing `read_exact`
of the two extra brand slots yields `Compression::Unknown`, not an error. -/
def matchesHdr (header : List Nat) (d : List Nat) (pos : Nat) : Option Compression :=
  if header.length < 12 ∨ (header.drop 4).take 4 ≠ [102, 116, 121, 112] then none
  else
    let brand := (header.drop 8).take 4
    match inner_matches brand with
    | some c => some c           -- case 1: { heic, ... }
    | none =>
      if brand ∈ structuralBrands then
        match readExact d pos 12 with
        | .error _ => some .unknown
        | .ok (buf, _) =>
          let brand2 := (buf.drop 4).take 4
          match inner_matches brand2 with
          | some c => some c     -- case 2: { msf1, version, heic, ... }
          | none =>
            if brand2 ∈ structuralBrands then
              -- case 3: { msf1, version, msf1, heic, ... }
              match inner_matches ((buf.drop 8).take 4) with
              | some c => some c
              | none => some .unknown
            else some .unknown
      else some .unknown

end Heif

/-! ## Crafted inputs and reference functions

Byte-level builders for families of inputs used in the theorems below, and
reference functions (folds) describing the `ipco` scan at the level of the
box list it walks. -/

/-- Big-endian `u32` serialization (for building test inputs). -/
def u32be (n : Nat) : List Nat :=
  [n / 16777216 % 256, n / 65536 % 256, n / 256 % 256, n % 256]

/-- A child box of an `ipco` container, as the scan distinguishes them. -/
inductive IpcoItem where
  | ispe (w h : Nat)
  | irot (r : Nat)

/-- Serialization of one `ipco` child box: `ispe` is 20 bytes (size, tag,
junk `u32`, width, height); `irot` is 9 bytes (size, tag, rotation byte). -/
def itemBytes : IpcoItem → List Nat
  | .ispe w h => u32be 20 ++ ispeTag ++ u32be 0 ++ u32be w ++ u32be h
  | .irot r => u32be 9 ++ irotTag ++ [r]

def itemsBytes : List IpcoItem → List Nat
  | [] => []
  | i :: t => itemBytes i ++ itemsBytes t

/-- Byte values of an item are in range (`u32` dimensions, `u8` rotation). -/
def itemOk : IpcoItem → Prop
  | .ispe w h => w < 2 ^ 32 ∧ h < 2 ^ 32
  | .irot r => r < 256

/-- The 36-byte prefix of a minimal HEIF file: an 8-byte `ftyp` box, then
`meta` (with its junk `u32`), `iprp` and `ipco` headers, each found
immediately by `skip_to_tag`. -/
def heifHeader (ipcoSize : Nat) : List Nat :=
  u32be 8 ++ [102, 116, 121, 112] ++
  u32be 16 ++ metaTag ++ u32be 0 ++
  u32be 16 ++ iprpTag ++
  u32be ipcoSize ++ ipcoTag

/-- A HEIF file whose `ipco` content is exactly the given items; the file
ends right after them, so the scan exits at end of data. -/
def heifFile (items : List IpcoItem) : List Nat :=
  heifHeader (8 + (itemsBytes items).length) ++ itemsBytes items

/-- One step of the `ipco` scan state `(max_w, max_h, found_ispe, rotation)`
as the loop processes one child box. -/
def itemStep : (Nat × Nat × Bool × Nat) → IpcoItem → (Nat × Nat × Bool × Nat)
  | (mw, mh, _, rot), .ispe w h =>
    if w * h > mw * mh then (w, h, true, rot) else (mw, mh, true, rot)
  | (mw, mh, found, _), .irot r => (mw, mh, found, r)

/-- The `ipco` scan over a decoded box list. -/
def runItems (items : List IpcoItem) (s : Nat × Nat × Bool × Nat) : Nat × Nat × Bool × Nat :=
  items.foldl itemStep s

/-- The max-by-area fold over `(width, height)` pairs from accumulator
`acc` (the loop starts from `(0, 0)`). -/
def foldArea (pairs : List (Nat × Nat)) (acc : Nat × Nat) : Nat × Nat :=
  pairs.foldl (fun acc p => if p.1 * p.2 > acc.1 * acc.2 then p else acc) acc

/-- The pair the HEIF scan reports for a list of `ispe` dimensions. -/
def foldMaxPair (pairs : List (Nat × Nat)) : Nat × Nat := foldArea pairs (0, 0)

/-- `ispe`-only item lists from dimension pairs. -/
def ispeItems (pairs : List (Nat × Nat)) : List IpcoItem :=
  pairs.map fun q => IpcoItem.ispe q.1 q.2

/-- A JPEG whose outer stream (dimensions `hh hl` × `wh wl`, big-endian
byte pairs) embeds a thumbnail stream with its own SOF carrying dimensions
`ih il iw iw2`: SOI, embedded SOI (depth 1), embedded SOF (skipped),
embedded EOI (back to depth 0), then the outer SOF. -/
def thumbJpeg (ih il iw iw2 hh hl wh wl : Nat) : List Nat :=
  [0xFF, 0xD8, 0xFF, 0xD8, 0, 2, 0xFF, 0xC0, 0, 8, 0, 0, ih, il, iw, iw2,
   0xFF, 0xD9, 0, 2, 0xFF, 0xC0, 0, 0, 0, hh, hl, wh, wl]

/-- A JPEG whose first marker after SOI is EOI: depth goes negative. -/
def underflowJpeg : List Nat := [0xFF, 0xD8, 0xFF, 0xD9, 0]

/-- `n` copies of the 4-byte segment `FF D8 00 02`: an embedded-image start
marker whose declared segment length 2 skips zero extra bytes, so each copy
raises the JPEG scan's depth counter by one. -/
def ffd8Blocks : Nat → List Nat
  | 0 => []
  | n + 1 => 255 :: 216 :: 0 :: 2 :: ffd8Blocks n

/-- A JPEG prelude (`FF D8`) followed by `i32::MAX + 1` depth-raising
segments: `2^33 + 2` bytes that drive the `i32` depth counter past its
maximum. -/
def overflowJpegInput : List Nat := 255 :: 216 :: ffd8Blocks 2147483648

/-- A classic little-endian TIFF whose single IFD entry has type code 0,
which is outside the type-width table. -/
def tiffBadKind : List Nat :=
  [73, 73, 42, 0, 8, 0, 0, 0, 1, 0, 52, 18, 0, 0, 1, 0, 0, 0]

/-- A HEIF file with an empty `ipco`: the scan ends without any `ispe`. -/
def heifNoIspe : List Nat := heifFile []

/-- A HEIF file whose `ipco` has a child box of declared size 5 (< 8). -/
def heifSmallBox : List Nat := heifHeader 13 ++ [0, 0, 0, 5, 120, 120, 120, 120]

/-- A HEIF file whose box walk (before `meta` is found) hits a box of
declared size 4 (< 8). -/
def heifBadSkip : List Nat :=
  u32be 8 ++ [102, 116, 121, 112] ++ [0, 0, 0, 4, 120, 120, 120, 120]

/-- A 12-byte `ftyp` header with the plain ISO-BMFF brand `isom` (e.g. an
MP4 file), which is not a codec brand. -/
def ftypIsomHeader : List Nat :=
  u32be 24 ++ [102, 116, 121, 112] ++ [105, 115, 111, 109]

/-- A 12-byte `ftyp` header with the structural brand `mif1`. -/
def ftypMif1Header : List Nat :=
  u32be 24 ++ [102, 116, 121, 112] ++ [109, 105, 102, 49]

/-! ## Termination infrastructure

`NoDiv x` says the fuel-encoded computation `x` did not exhaust its fuel;
proving it for every entry point with the fuel the entry points actually
pass is the termination proof for the parser loops. -/

def NoDiv {α : Type} (x : Except ImageError α) : Prop := x ≠ .error .diverge

theorem noDiv_ok {α : Type} (a : α) : NoDiv (.ok a) := by
  intro h; cases h

theorem noDiv_pure {α : Type} (a : α) : NoDiv (α := α) (pure a) := by
  intro h; cases h

theorem noDiv_notSupported {α : Type} : NoDiv (α := α) (.error .notSupported) := by
  intro h; cases h

theorem noDiv_corrupted {α : Type} : NoDiv (α := α) (.error .corruptedImage) := by
  intro h; cases h

theorem noDiv_io {α : Type} (k : IOKind) : NoDiv (α := α) (.error (.ioError k)) := by
  intro h; cases h

@[simp] theorem error_bind {α β : Type} (e : ImageError) (f : α → Except ImageError β) :
    (Except.error e >>= f) = Except.error e := rfl

@[simp] theorem ok_bind {α β : Type} (a : α) (f : α → Except ImageError β) :
    (Except.ok a >>= f) = f a := rfl

@[simp] theorem pureE_bind {α β : Type} (a : α) (f : α → Except ImageError β) :
    ((pure a : Except ImageError α) >>= f) = f a := rfl

theorem noDiv_bind_cases {α β : Type} {x : Except ImageError α} {f : α → Except ImageError β}
    (hx : NoDiv x) (hf : ∀ a, x = .ok a → NoDiv (f a)) : NoDiv (x >>= f) := by
  cases x with
  | error e => simpa [NoDiv] using hx
  | ok a => simpa using hf a rfl

theorem noDiv_readExact (d : List Nat) (p n : Nat) : NoDiv (readExact d p n) := by
  unfold readExact; split
  · exact noDiv_ok _
  · exact noDiv_io _

theorem noDiv_seekCur (p : Nat) (δ : Int) : NoDiv (seekCur p δ) := by
  unfold seekCur; split
  · exact noDiv_ok _
  · exact noDiv_io _

theorem noDiv_read_u8 (d : List Nat) (p : Nat) : NoDiv (read_u8 d p) := by
  unfold read_u8
  exact noDiv_bind_cases (noDiv_readExact d p 1) (fun a _ => noDiv_pure _)

theorem noDiv_read_u16 (d : List Nat) (p : Nat) (e : Endian) : NoDiv (read_u16 d p e) := by
  unfold read_u16
  refine noDiv_bind_cases (noDiv_readExact d p 2) (fun a _ => ?_)
  cases e <;> exact noDiv_pure _

theorem noDiv_read_u24 (d : List Nat) (p : Nat) (e : Endian) : NoDiv (read_u24 d p e) := by
  unfold read_u24
  refine noDiv_bind_cases (noDiv_readExact d p 3) (fun a _ => ?_)
  cases e <;> exact noDiv_pure _

theorem noDiv_read_u32 (d : List Nat) (p : Nat) (e : Endian) : NoDiv (read_u32 d p e) := by
  unfold read_u32
  refine noDiv_bind_cases (noDiv_readExact d p 4) (fun a _ => ?_)
  cases e <;> exact noDiv_pure _

theorem noDiv_read_u64 (d : List Nat) (p : Nat) (e : Endian) : NoDiv (read_u64 d p e) := by
  unfold read_u64
  refine noDiv_bind_cases (noDiv_readExact d p 8) (fun a _ => ?_)
  cases e <;> exact noDiv_pure _

theorem noDiv_read_bits (s n o sz : Nat) : NoDiv (read_bits s n o sz) := by
  unfold read_bits; split
  · exact noDiv_ok _
  · exact noDiv_corrupted

theorem noDiv_read_tag (d : List Nat) (p : Nat) : NoDiv (read_tag d p) := by
  unfold read_tag
  refine noDiv_bind_cases (noDiv_read_u32 d p .big) (fun a _ => ?_)
  obtain ⟨size, p1⟩ := a
  exact noDiv_bind_cases (noDiv_readExact d p1 4) (fun b _ => noDiv_pure _)

/-- Inverting a successful `readExact`: position advances by exactly `n`
and the request fitted inside the data. -/
theorem readExact_ok {d : List Nat} {p n : Nat} {bs : List Nat} {p' : Nat}
    (h : readExact d p n = .ok (bs, p')) : p' = p + n ∧ p + n ≤ d.length := by
  unfold readExact at h
  split at h
  · simp only [Except.ok.injEq, Prod.mk.injEq] at h
    exact ⟨h.2.symm, by omega⟩
  · cases h

theorem read_u16_ok {d : List Nat} {p : Nat} {e : Endian} {v p' : Nat}
    (h : read_u16 d p e = .ok (v, p')) : p' = p + 2 ∧ p + 2 ≤ d.length := by
  unfold read_u16 at h
  cases hre : readExact d p 2 with
  | error er => rw [hre] at h; cases h
  | ok a =>
    obtain ⟨bs, q⟩ := a
    have hq := readExact_ok hre
    rw [hre] at h
    cases e <;> simp only [ok_bind, pure, Except.pure, Except.ok.injEq, Prod.mk.injEq] at h <;>
      exact ⟨h.2 ▸ hq.1, hq.2⟩

theorem read_u32_ok {d : List Nat} {p : Nat} {e : Endian} {v p' : Nat}
    (h : read_u32 d p e = .ok (v, p')) : p' = p + 4 ∧ p + 4 ≤ d.length := by
  unfold read_u32 at h
  cases hre : readExact d p 4 with
  | error er => rw [hre] at h; cases h
  | ok a =>
    obtain ⟨bs, q⟩ := a
    have hq := readExact_ok hre
    rw [hre] at h
    cases e <;> simp only [ok_bind, pure, Except.pure, Except.ok.injEq, Prod.mk.injEq] at h <;>
      exact ⟨h.2 ▸ hq.1, hq.2⟩

theorem read_u8_ok {d : List Nat} {p : Nat} {v p' : Nat}
    (h : read_u8 d p = .ok (v, p')) : p' = p + 1 ∧ p + 1 ≤ d.length := by
  unfold read_u8 at h
  cases hre : readExact d p 1 with
  | error er => rw [hre] at h; cases h
  | ok a =>
    obtain ⟨bs, q⟩ := a
    have hq := readExact_ok hre
    rw [hre] at h
    simp only [ok_bind, pure, Except.pure, Except.ok.injEq, Prod.mk.injEq] at h
    exact ⟨h.2 ▸ hq.1, hq.2⟩

theorem read_tag_ok {d : List Nat} {p : Nat} {tag : List Nat} {size p' : Nat}
    (h : read_tag d p = .ok (tag, size, p')) : p' = p + 8 ∧ p + 8 ≤ d.length := by
  unfold read_tag at h
  cases h1 : read_u32 d p .big with
  | error er => rw [h1] at h; cases h
  | ok a =>
    obtain ⟨sz, p1⟩ := a
    have hp1 := read_u32_ok h1
    rw [h1] at h
    simp only [ok_bind] at h
    cases h2 : readExact d p1 4 with
    | error er => rw [h2] at h; cases h
    | ok b =>
      obtain ⟨bs, p2⟩ := b
      have hp2 := readExact_ok h2
      rw [h2] at h
      simp only [ok_bind, pure, Except.pure, Except.ok.injEq, Prod.mk.injEq] at h
      refine ⟨?_, by omega⟩
      have := h.2.2
      omega

theorem seekCur_ok {p : Nat} {δ : Int} {p' : Nat}
    (h : seekCur p δ = .ok p') : (p' : Int) = (p : Int) + δ := by
  unfold seekCur at h
  split at h
  · injection h with h1
    subst h1
    exact Int.toNat_of_nonneg (by assumption)
  · cases h

/-- The `skip_to_tag` loop of `src/lib.rs` cannot exhaust its fuel: each
iteration either stops or moves the cursor at least 9 bytes forward, and it
can only recurse while the 8-byte box header was still inside the data. -/
theorem skipToTag_lib_noDiv (d tag : List Nat) :
    ∀ fuel pos, d.length + 1 ≤ fuel + pos → 1 ≤ fuel →
      NoDiv (Lib.skipToTag d tag fuel pos) := by
  intro fuel
  induction fuel with
  | zero => intro pos _ h1; omega
  | succ f ih =>
    intro pos hlen _
    simp only [Lib.skipToTag]
    refine noDiv_bind_cases (noDiv_read_u32 d pos .big) ?_
    rintro ⟨size, p1⟩ h1
    have hp1 := read_u32_ok h1
    refine noDiv_bind_cases (noDiv_readExact d p1 4) ?_
    rintro ⟨tagBuf, p2⟩ h2
    have hp2 := readExact_ok h2
    split
    · exact noDiv_pure _
    · split
      · exact noDiv_io _
      · rename_i hsz
        refine noDiv_bind_cases (noDiv_seekCur p2 _) ?_
        intro p3 h3
        have hv := seekCur_ok h3
        exact ih p3 (by omega) (by omega)

/-- Same statement for the `skip_to_tag` of `src/container/heif.rs` (which
skips boxes of size exactly 8 instead of rejecting them). -/
theorem skipToTag_heif_noDiv (d tag : List Nat) :
    ∀ fuel pos, d.length + 1 ≤ fuel + pos → 1 ≤ fuel →
      NoDiv (Heif.skipToTag d tag fuel pos) := by
  intro fuel
  induction fuel with
  | zero => intro pos _ h1; omega
  | succ f ih =>
    intro pos hlen _
    simp only [Heif.skipToTag]
    refine noDiv_bind_cases (noDiv_read_u32 d pos .big) ?_
    rintro ⟨size, p1⟩ h1
    have hp1 := read_u32_ok h1
    refine noDiv_bind_cases (noDiv_readExact d p1 4) ?_
    rintro ⟨tagBuf, p2⟩ h2
    have hp2 := readExact_ok h2
    split
    · exact noDiv_pure _
    · split
      · rename_i hsz
        refine noDiv_bind_cases (noDiv_seekCur p2 _) ?_
        intro p3 h3
        have hv := seekCur_ok h3
        exact ih p3 (by omega) (by omega)
      · exact noDiv_io _

/-- The shared `ipco` child-box scan cannot exhaust its fuel: every
iteration that recurses advances the cursor by at least 8 bytes after
having read an 8-byte box header that was inside the data. -/
theorem ipcoLoop_noDiv (d : List Nat) :
    ∀ fuel pos ipc mw mh found rot, d.length + 1 ≤ fuel + pos → 1 ≤ fuel →
      NoDiv (ipcoLoop d fuel pos ipc mw mh found rot) := by
  intro fuel
  induction fuel with
  | zero => intro pos _ _ _ _ _ _ h1; omega
  | succ f ih =>
    intro pos ipc mw mh found rot hlen _
    simp only [ipcoLoop]
    cases htag : read_tag d pos with
    | error e => exact noDiv_ok _
    | ok a =>
      obtain ⟨tag, size, p1⟩ := a
      have hp1 := read_tag_ok htag
      dsimp only
      split
      · exact noDiv_corrupted
      · split
        · refine noDiv_bind_cases (noDiv_read_u32 d p1 .big) ?_
          rintro ⟨j, p2⟩ h2
          have hp2 := read_u32_ok h2
          refine noDiv_bind_cases (noDiv_read_u32 d p2 .big) ?_
          rintro ⟨w, p3⟩ h3
          have hp3 := read_u32_ok h3
          refine noDiv_bind_cases (noDiv_read_u32 d p3 .big) ?_
          rintro ⟨h, p4⟩ h4
          have hp4 := read_u32_ok h4
          split
          · exact ih p4 ipc w h true rot (by omega) (by omega)
          · exact ih p4 ipc mw mh true rot (by omega) (by omega)
        · split
          · refine noDiv_bind_cases (noDiv_read_u8 d p1) ?_
            rintro ⟨r, p2⟩ h2
            have hp2 := read_u8_ok h2
            exact ih p2 ipc mw mh found r (by omega) (by omega)
          · split
            · exact noDiv_ok _
            · rename_i hszlt hge
              refine noDiv_bind_cases (noDiv_seekCur p1 _) ?_
              intro p2 h2
              have hv := seekCur_ok h2
              exact ih p2 (ipc - size) mw mh found rot (by omega) (by omega)

/-- The JPEG marker scan cannot exhaust its fuel: each iteration reads 4
bytes and seeks back at most 2, so the cursor advances at least 2 bytes. -/
theorem jpegLoop_noDiv (d : List Nat) :
    ∀ fuel pos depth, d.length + 1 ≤ fuel + pos → 1 ≤ fuel →
      NoDiv (Lib.jpegLoop d fuel pos depth) := by
  intro fuel
  induction fuel with
  | zero => intro pos depth _ h1; omega
  | succ f ih =>
    intro pos depth hlen _
    simp only [Lib.jpegLoop]
    refine noDiv_bind_cases (noDiv_readExact d pos 2) ?_
    rintro ⟨marker, p1⟩ h1
    have hp1 := readExact_ok h1
    dsimp only
    split
    · exact noDiv_corrupted
    · split
      · exact noDiv_seekCur _ _
      · repeat' split
        all_goals first
          | exact noDiv_corrupted
          | (refine noDiv_bind_cases (noDiv_read_u16 d p1 .big) ?_
             rintro ⟨ps, p2⟩ h2
             have hp2 := read_u16_ok h2
             refine noDiv_bind_cases (noDiv_seekCur p2 _) ?_
             intro p3 h3
             have hv := seekCur_ok h3
             exact ih p3 _ (by omega) (by omega))

/-- The classic-TIFF IFD loop terminates outright: it runs at most
`ifd_count` iterations (structural recursion), so it never diverges. -/
theorem tiffLoop_noDiv (d : List Nat) (e : Endian) :
    ∀ n pos wo ho, NoDiv (Lib.tiffLoop d e n pos wo ho) := by
  intro n
  induction n with
  | zero => intro pos wo ho; exact noDiv_io _
  | succ n ih =>
    intro pos wo ho
    simp only [Lib.tiffLoop]
    refine noDiv_bind_cases (noDiv_read_u16 d pos e) ?_
    rintro ⟨tag, p1⟩ h1
    dsimp only
    split
    · refine noDiv_bind_cases (noDiv_seekCur p1 6) fun p2 _ => ?_
      refine noDiv_bind_cases (noDiv_read_u32 d p2 e) ?_
      rintro ⟨v, p3⟩ _
      try simp only [pureE_bind]
      try dsimp only
      cases ho <;> try dsimp only
      · exact ih _ _ _
      · exact noDiv_pure _
    · split
      · refine noDiv_bind_cases (noDiv_seekCur p1 6) fun p2 _ => ?_
        refine noDiv_bind_cases (noDiv_read_u32 d p2 e) ?_
        rintro ⟨v, p3⟩ _
        try simp only [pureE_bind]
        try dsimp only
        cases wo <;> try dsimp only
        · exact ih _ _ _
        · exact noDiv_pure _
      · refine noDiv_bind_cases (noDiv_read_u16 d p1 e) ?_
        rintro ⟨kind, p2⟩ h2
        refine noDiv_bind_cases (noDiv_read_u32 d p2 e) ?_
        rintro ⟨count, p3⟩ h3
        dsimp only
        split
        all_goals try simp only [pureE_bind, error_bind]
        all_goals first
          | exact noDiv_io _
          | (refine noDiv_bind_cases (noDiv_seekCur p3 _) fun p4 _ => ?_
             try simp only [pureE_bind]
             try dsimp only
             cases wo <;> cases ho <;> try dsimp only
             all_goals first
               | exact ih _ _ _
               | exact noDiv_pure _)

/-- Inverting a successful `readBoxSize`: the cursor either stays (inline
size) or advances by the 8 extra size bytes that were inside the data. -/
theorem readBoxSize_ok {d : List Nat} {p1 sr bsz p2 : Nat}
    (h : Lib.readBoxSize d p1 sr = .ok (bsz, p2)) :
    p2 = p1 ∨ (p2 = p1 + 8 ∧ p1 + 8 ≤ d.length) := by
  unfold Lib.readBoxSize at h
  split at h
  · cases hre : readExact d p1 8 with
    | error er => rw [hre] at h; cases h
    | ok b =>
      obtain ⟨bs, q⟩ := b
      have hq := readExact_ok hre
      rw [hre] at h
      simp only [ok_bind, pure, Except.pure, Except.ok.injEq, Prod.mk.injEq] at h
      exact Or.inr ⟨by omega, hq.2⟩
  · simp only [pure, Except.pure, Except.ok.injEq, Prod.mk.injEq] at h
    exact Or.inl h.2.symm

theorem noDiv_readBoxSize (d : List Nat) (p1 sr : Nat) : NoDiv (Lib.readBoxSize d p1 sr) := by
  unfold Lib.readBoxSize
  split
  · exact noDiv_bind_cases (noDiv_readExact d p1 8) fun _ _ => noDiv_pure _
  · exact noDiv_pure _

/-- The JPEG-XL box scan cannot exhaust its fuel: a recursing iteration has
a nonzero box size of at least the 8- or 16-byte box header it just read
inside the data, and seeks to the end of that box. -/
theorem jxlLoop_noDiv (d : List Nat) :
    ∀ fuel pos fh hs, d.length + 1 ≤ fuel + pos → 1 ≤ fuel →
      NoDiv (Lib.jxlLoop d fuel pos fh hs) := by
  intro fuel
  induction fuel with
  | zero => intro pos fh hs _ h1; omega
  | succ f ih =>
    intro pos fh hs hlen _
    rw [Lib.jxlLoop]
    refine noDiv_bind_cases (noDiv_read_tag d pos) ?_
    rintro ⟨boxType, sizeRaw, p1⟩ htag
    have hp1 := read_tag_ok htag
    refine noDiv_bind_cases (noDiv_readBoxSize d p1 sizeRaw) ?_
    rintro ⟨boxSize, p2⟩ hbs
    have hp2 := readBoxSize_ok hbs
    dsimp only
    repeat' split
    all_goals first
      | exact noDiv_corrupted
      | exact noDiv_io _
      | exact noDiv_pure _
      | exact ih _ _ _ (by omega) (by omega)
      | (refine noDiv_bind_cases (noDiv_readExact d p2 4) ?_
         rintro ⟨idx, p3⟩ h4
         repeat' split
         all_goals first
           | exact noDiv_io _
           | exact noDiv_pure _
           | exact ih _ _ _ (by omega) (by omega))

theorem noDiv_bmp_size (d : List Nat) : NoDiv (Lib.bmp_size d) := by
  unfold Lib.bmp_size
  refine noDiv_bind_cases (noDiv_read_u32 d 0x12 .little) ?_
  rintro ⟨w, p⟩ _
  exact noDiv_bind_cases (noDiv_read_u32 d p .little) fun _ _ => noDiv_pure _

theorem noDiv_gif_size (h : List Nat) : NoDiv (Lib.gif_size h) := noDiv_ok _

theorem noDiv_png_size (d : List Nat) : NoDiv (Lib.png_size d) := by
  unfold Lib.png_size
  refine noDiv_bind_cases (noDiv_read_u32 d 0x10 .big) ?_
  rintro ⟨w, p⟩ _
  exact noDiv_bind_cases (noDiv_read_u32 d p .big) fun _ _ => noDiv_pure _

theorem noDiv_psd_size (d : List Nat) : NoDiv (Lib.psd_size d) := by
  unfold Lib.psd_size
  refine noDiv_bind_cases (noDiv_read_u32 d 0x0E .big) ?_
  rintro ⟨h, p⟩ _
  exact noDiv_bind_cases (noDiv_read_u32 d p .big) fun _ _ => noDiv_pure _

theorem noDiv_heif_size (d : List Nat) : NoDiv (Lib.heif_size d) := by
  unfold Lib.heif_size
  refine noDiv_bind_cases (noDiv_read_u32 d 0 .big) ?_
  rintro ⟨ftypSize, p0⟩ _
  refine noDiv_bind_cases (skipToTag_lib_noDiv d metaTag _ _ (by omega) (by omega)) ?_
  rintro ⟨s1, p1⟩ _
  refine noDiv_bind_cases (noDiv_read_u32 d p1 .big) ?_
  rintro ⟨j, p2⟩ _
  refine noDiv_bind_cases (skipToTag_lib_noDiv d iprpTag _ _ (by omega) (by omega)) ?_
  rintro ⟨s2, p3⟩ _
  refine noDiv_bind_cases (skipToTag_lib_noDiv d ipcoTag _ _ (by omega) (by omega)) ?_
  rintro ⟨ipc, p4⟩ _
  refine noDiv_bind_cases (ipcoLoop_noDiv d _ _ _ _ _ _ _ (by omega) (by omega)) ?_
  rintro ⟨mw, mh, found, rot⟩ _
  dsimp only
  repeat' split
  all_goals first
    | exact noDiv_io _
    | exact noDiv_pure _

theorem noDiv_jpeg_size (d : List Nat) : NoDiv (Lib.jpeg_size d) := by
  unfold Lib.jpeg_size
  refine noDiv_bind_cases (jpegLoop_noDiv d _ _ _ (by omega) (by omega)) ?_
  intro hpos _
  refine noDiv_bind_cases (noDiv_read_u16 d hpos .big) ?_
  rintro ⟨height, p1⟩ _
  exact noDiv_bind_cases (noDiv_read_u16 d p1 .big) fun _ _ => noDiv_pure _

theorem noDiv_tiff_size (d : List Nat) : NoDiv (Lib.tiff_size d) := by
  unfold Lib.tiff_size
  refine noDiv_bind_cases (noDiv_readExact d 0 2) ?_
  rintro ⟨em, p0⟩ _
  dsimp only
  repeat' split
  all_goals try simp only [pureE_bind, error_bind]
  all_goals first
    | exact noDiv_io _
    | (refine noDiv_bind_cases (noDiv_read_u32 d 4 _) ?_
       rintro ⟨ifdOffset, p1⟩ _
       dsimp only
       split
       · exact noDiv_io _
       · refine noDiv_bind_cases (noDiv_read_u16 d ifdOffset _) ?_
         rintro ⟨ifdCount, p2⟩ _
         exact tiffLoop_noDiv d _ _ _ _ _)

theorem noDiv_webp_size (d : List Nat) : NoDiv (Lib.webp_size d) := by
  unfold Lib.webp_size Lib.webp_vp8_size Lib.webp_vp8l_size Lib.webp_vp8x_size
  refine noDiv_bind_cases (noDiv_readExact d 12 4) ?_
  rintro ⟨buffer, p0⟩ _
  dsimp only
  split
  · refine noDiv_bind_cases (noDiv_read_u16 d 0x1A .little) ?_
    rintro ⟨w, p⟩ _
    exact noDiv_bind_cases (noDiv_read_u16 d p .little) fun _ _ => noDiv_pure _
  · split
    · exact noDiv_bind_cases (noDiv_read_u32 d 0x15 .little) fun _ _ => noDiv_pure _
    · split
      · refine noDiv_bind_cases (noDiv_read_u24 d 0x18 .little) ?_
        rintro ⟨w, p⟩ _
        exact noDiv_bind_cases (noDiv_read_u24 d p .little) fun _ _ => noDiv_pure _
      · exact noDiv_io _

theorem noDiv_jxlWidth (source size ratio a b c height : Nat) :
    NoDiv (Lib.jxlWidth source size ratio a b c height) := by
  unfold Lib.jxlWidth
  split
  all_goals first
    | exact noDiv_pure _
    | exact noDiv_bind_cases (noDiv_read_bits _ _ _ _) fun _ _ => noDiv_pure _

theorem noDiv_jxlOrientation (source size mo : Nat) :
    NoDiv (Lib.jxlOrientation source size mo) := by
  unfold Lib.jxlOrientation
  refine noDiv_bind_cases (noDiv_read_bits _ _ _ _) ?_
  intro v _
  split
  · exact noDiv_pure _
  · refine noDiv_bind_cases (noDiv_read_bits _ _ _ _) ?_
    intro w _
    split
    · exact noDiv_read_bits _ _ _ _
    · exact noDiv_pure _

theorem noDiv_jxlParse (fh : List Nat) (hs : Nat) : NoDiv (Lib.jxlParse fh hs) := by
  unfold Lib.jxlParse
  split
  · exact noDiv_corrupted
  · split
    · exact noDiv_io _
    · refine noDiv_bind_cases (noDiv_read_bits _ _ _ _) ?_
      intro v1 _
      refine noDiv_bind_cases (noDiv_read_bits _ _ _ _) ?_
      intro v2 _
      refine noDiv_bind_cases (noDiv_read_bits _ _ _ _) ?_
      intro h0 _
      refine noDiv_bind_cases (noDiv_read_bits _ _ _ _) ?_
      intro ratio _
      refine noDiv_bind_cases (noDiv_read_bits _ _ _ _) ?_
      intro wsel _
      refine noDiv_bind_cases (noDiv_jxlWidth _ _ _ _ _ _ _) ?_
      intro width _
      refine noDiv_bind_cases (noDiv_jxlOrientation _ _ _) ?_
      intro orientation _
      split
      · exact noDiv_pure _
      · exact noDiv_pure _

theorem noDiv_jxl_size (d : List Nat) : NoDiv (Lib.jxl_size d) := by
  unfold Lib.jxl_size
  refine noDiv_bind_cases (noDiv_readExact d 0 2) ?_
  rintro ⟨sig, p1⟩ _
  dsimp only
  split
  · exact noDiv_jxlParse _ _
  · refine noDiv_bind_cases (jxlLoop_noDiv d _ _ _ _ (by omega) (by omega)) ?_
    rintro ⟨fh, hs⟩ _
    exact noDiv_jxlParse _ _

theorem noDiv_ite {α : Type} (c : Prop) [Decidable c] (x y : Except ImageError α)
    (hx : NoDiv x) (hy : NoDiv y) : NoDiv (if c then x else y) := by
  split <;> assumption

theorem noDiv_image_type (h : List Nat) : NoDiv (Lib.image_type h) := by
  unfold Lib.image_type
  repeat' first
    | exact noDiv_ok _
    | exact noDiv_notSupported
    | exact noDiv_io _
    | refine noDiv_ite _ _ _ ?_ ?_

theorem noDiv_dispatch_header (d header : List Nat) : NoDiv (Lib.dispatch_header d header) := by
  unfold Lib.dispatch_header
  refine noDiv_bind_cases (noDiv_image_type header) ?_
  intro t _
  cases t
  · exact noDiv_bmp_size d
  · exact noDiv_gif_size header
  · exact noDiv_heif_size d
  · exact noDiv_jpeg_size d
  · exact noDiv_jxl_size d
  · exact noDiv_png_size d
  · exact noDiv_psd_size d
  · exact noDiv_tiff_size d
  · exact noDiv_webp_size d

theorem noDiv_blob_size (d : List Nat) : NoDiv (Lib.blob_size d) := by
  unfold Lib.blob_size
  refine noDiv_bind_cases (noDiv_readExact d 0 12) ?_
  rintro ⟨header, p⟩ _
  exact noDiv_dispatch_header d header

/-! ## Symbolic evaluation lemmas

Step lemmas that evaluate the primitive reads on an input described by a
`d.drop p = ...` fact, used to run the parsers on the crafted input
families above. -/

theorem drop_shift {d l : List Nat} {p : Nat} (h : d.drop p = l) (n : Nat) :
    d.drop (p + n) = l.drop n := by
  rw [← h, List.drop_drop, Nat.add_comm]

theorem drop_len {d l : List Nat} {p : Nat} (h : d.drop p = l) (hp : p ≤ d.length) :
    d.length = p + l.length := by
  have hc := congrArg List.length h
  rw [List.length_drop] at hc
  omega

theorem readExact_of_drop {d l : List Nat} {p : Nat} (h : d.drop p = l) (hp : p ≤ d.length)
    {n : Nat} (hn : n ≤ l.length) : readExact d p n = .ok (l.take n, p + n) := by
  have hd := drop_len h hp
  unfold readExact
  rw [if_pos (by omega), h]

theorem readExact_eof {d : List Nat} {p n : Nat} (h : d.length < p + n) :
    readExact d p n = .error (.ioError .unexpectedEof) := by
  unfold readExact
  rw [if_neg (by omega)]

theorem read_u8_step {d : List Nat} {p : Nat} {a : Nat} {rest : List Nat}
    (h : d.drop p = a :: rest) (hp : p ≤ d.length) :
    read_u8 d p = .ok (a, p + 1) := by
  unfold read_u8
  rw [readExact_of_drop h hp (by simp)]
  simp [beVal]

theorem read_u16_be_step {d : List Nat} {p : Nat} {a b : Nat} {rest : List Nat}
    (h : d.drop p = a :: b :: rest) (hp : p ≤ d.length)
    (v : Nat) (hv : a * 256 + b = v) :
    read_u16 d p .big = .ok (v, p + 2) := by
  unfold read_u16
  rw [readExact_of_drop h hp (by simp)]
  simp [beVal, ← hv]

theorem read_u32_be_step {d : List Nat} {p : Nat} {a b c e : Nat} {rest : List Nat}
    (h : d.drop p = a :: b :: c :: e :: rest) (hp : p ≤ d.length)
    (v : Nat) (hv : ((a * 256 + b) * 256 + c) * 256 + e = v) :
    read_u32 d p .big = .ok (v, p + 4) := by
  unfold read_u32
  rw [readExact_of_drop h hp (by simp)]
  simp [beVal, ← hv]

theorem read_u32_eof {d : List Nat} {p : Nat} (h : d.length < p + 4) (e : Endian) :
    read_u32 d p e = .error (.ioError .unexpectedEof) := by
  unfold read_u32
  rw [readExact_eof h, error_bind]

theorem read_u16_eof {d : List Nat} {p : Nat} (h : d.length < p + 2) (e : Endian) :
    read_u16 d p e = .error (.ioError .unexpectedEof) := by
  unfold read_u16
  rw [readExact_eof h, error_bind]

theorem read_tag_step {d : List Nat} {p : Nat} {a b c e t1 t2 t3 t4 : Nat} {rest : List Nat}
    (h : d.drop p = a :: b :: c :: e :: t1 :: t2 :: t3 :: t4 :: rest) (hp : p ≤ d.length)
    (v : Nat) (hv : ((a * 256 + b) * 256 + c) * 256 + e = v) :
    read_tag d p = .ok ([t1, t2, t3, t4], v, p + 8) := by
  unfold read_tag
  rw [read_u32_be_step h hp v hv, ok_bind]
  have h4 : d.drop (p + 4) = t1 :: t2 :: t3 :: t4 :: rest := by
    have hs := drop_shift h 4
    simpa using hs
  have hd := drop_len h hp
  simp only [List.length_cons] at hd
  dsimp only
  rw [readExact_of_drop h4 (by omega) (by simp)]
  have harith : p + 4 + 4 = p + 8 := by omega
  simp [pure, Except.pure, harith]

theorem read_tag_eof {d : List Nat} {p : Nat} (h : d.length < p + 8) :
    read_tag d p = .error (.ioError .unexpectedEof) := by
  unfold read_tag
  rcases Nat.lt_or_ge d.length (p + 4) with h4 | h4
  · rw [read_u32_eof h4, error_bind]
  · have : p + 4 ≤ d.length := h4
    cases hre : readExact d p 4 with
    | error er =>
      unfold readExact at hre
      rw [if_pos (by omega)] at hre
      cases hre
    | ok a =>
      obtain ⟨bs, q⟩ := a
      have hq := readExact_ok hre
      unfold read_u32
      rw [hre, ok_bind]
      simp only [pureE_bind, ok_bind]
      rw [readExact_eof (by omega), error_bind]

/-! ## Claim theorems -/

/-- C1 (amended): for every finite byte sequence, the public entry points
(`blob_size`, and `image_type` on the header window; `size` on a file path
reads the file and continues exactly like `blob_size`) terminate: the
fuel-encoded parser loops (JPEG marker scan, HEIF box walks, JPEG-XL box
scan, TIFF IFD iteration) never exhaust the fuel the entry points pass, so
every run ends in an `Ok` value or a typed `ImageError`.  The original
claim's freedom from overflowing arithmetic does not hold in this
generality: the `i32` depth counter of the JPEG scan overflows on a
`2^33 + 2`-byte input (see the counterexample). -/
theorem claim_C1 (data header : List Nat) :
    Lib.blob_size data ≠ Except.error ImageError.diverge ∧
    Lib.image_type header ≠ Except.error ImageError.diverge :=
  ⟨noDiv_blob_size data, noDiv_image_type header⟩

/-- C3 counterexample: the public `image_type` identifies BMP from a
2-byte slice, so it is false that no format tag is ever identified from
fewer than 12 header bytes. -/
theorem claim_C3_counterexample :
    Lib.image_type [0x42, 0x4D] = Except.ok Lib.ImageType.bmp := rfl

/-- C3 (amended): `blob_size` (and the file-based `size`) fail with the
"not enough data" EOF error for inputs shorter than 12 bytes, but
`image_type` itself identifies formats from prefixes as short as 2 bytes
and returns the EOF error exactly for slices shorter than 2 bytes: on any
slice of length at least 2 every branch yields an identified type or
`NotSupported`, never the EOF error. -/
theorem claim_C3 (data h : List Nat) :
    (data.length < 12 → Lib.blob_size data = Except.error (.ioError .unexpectedEof)) ∧
    (h.length < 2 → Lib.image_type h = Except.error (.ioError .unexpectedEof)) ∧
    (2 ≤ h.length → Lib.image_type h ≠ Except.error (.ioError .unexpectedEof)) ∧
    Lib.image_type [0x42, 0x4D] = Except.ok Lib.ImageType.bmp := by
  refine ⟨?_, ?_, ?_, rfl⟩
  · intro hlen
    unfold Lib.blob_size
    rw [readExact_eof (by omega), error_bind]
  · intro hlen
    unfold Lib.image_type
    rw [if_neg (by omega)]
  · intro hlen hc
    unfold Lib.image_type at hc
    rw [if_pos hlen] at hc
    repeat' split at hc
    all_goals simp at hc

theorem claim_C3_witness :
    Lib.blob_size [1, 2, 3] = Except.error (.ioError .unexpectedEof) ∧
    Lib.image_type [9] = Except.error (.ioError .unexpectedEof) ∧
    Lib.image_type [9, 9] ≠ Except.error (.ioError .unexpectedEof) :=
  ⟨(claim_C3 [1, 2, 3] [9]).1 (by decide), (claim_C3 [1, 2, 3] [9]).2.1 (by decide),
   (claim_C3 [1, 2, 3] [9, 9]).2.2.1 (by decide)⟩

/-- C4 counterexample: with `a = 1×100` (area 100) and `b = 2×1` (area 2),
the derived ordering has `a < b` although `a`'s area is larger, so the
ordering is not by pixel area. -/
theorem claim_C4_counterexample :
    sizeLt ⟨1, 100⟩ ⟨2, 1⟩ ∧ ¬(1 * 100 < 2 * 1) := by decide

/-- C4 (amended): the derived ordering on `ImageSize` is lexicographic on
`(width, height)` -- width compared first, height breaking ties -- not the
by-area ordering the spec describes. -/
theorem claim_C4 (a b : ImageSize) :
    sizeLt a b ↔ a.width < b.width ∨ (a.width = b.width ∧ a.height < b.height) := by
  unfold sizeLt ImageSize.cmp
  rcases Nat.lt_trichotomy a.width b.width with hw | hw | hw
  · have hc : compare a.width b.width = .lt := by
      rw [Nat.compare_eq_lt]; exact hw
    simp [hc, Ordering.then, hw]
  · have hc : compare a.width b.width = .eq := by
      rw [Nat.compare_eq_eq]; exact hw
    rw [hc]
    simp only [Ordering.then]
    rw [Nat.compare_eq_lt]
    constructor
    · intro hh; exact Or.inr ⟨hw, hh⟩
    · rintro (hh | ⟨_, hh⟩)
      · omega
      · exact hh
  · have hc : compare a.width b.width = .gt := by
      rw [Nat.compare_eq_gt]; exact hw
    simp only [hc, Ordering.then]
    constructor
    · intro hcon; cases hcon
    · intro hcon; omega

/-- C5 counterexample: a field that exactly fills the valid bits
(`bit_offset + num_bits = total_valid_bits`) is rejected, although the
claim says every field with `bit_offset + num_bits ≤ total_valid_bits`
is returned. -/
theorem claim_C5_counterexample :
    read_bits 255 8 0 8 = Except.error ImageError.corruptedImage ∧ 0 + 8 ≤ 8 :=
  ⟨rfl, by decide⟩

/-- C5 (amended): `read_bits` succeeds exactly when
`bit_offset + num_bits < total_valid_bits` (strictly; the boundary case is
an error), returning the `num_bits`-wide field at `bit_offset`, and fails
with `CorruptedImage` otherwise.  Stated for `num_bits < 64` (the width of
the `usize` mask; callers pass at most 30) and `total_valid_bits ≤ 128`
(the width of the `u128` accumulator; under the guard this keeps
`bit_offset < 128`, so the Rust shift does not overflow -- for larger
offsets the shift itself would panic in debug builds and mask the shift
amount in release builds). -/
theorem claim_C5 (source num_bits offset size : Nat) (hn : num_bits < 64)
    (hsz : size ≤ 128) :
    (offset + num_bits < size →
      read_bits source num_bits offset size = Except.ok ((source >>> offset) % 2 ^ num_bits)) ∧
    (size ≤ offset + num_bits →
      read_bits source num_bits offset size = Except.error ImageError.corruptedImage) := by
  constructor
  · intro hlt
    unfold read_bits
    rw [if_pos hlt, Nat.mod_eq_of_lt (show offset < 128 by omega)]
    congr 1
    rw [Nat.and_pow_two_sub_one_eq_mod]
    rw [Nat.mod_mod_of_dvd _ (pow_dvd_pow 2 (Nat.le_of_lt hn))]
  · intro hge
    unfold read_bits
    rw [if_neg (by omega)]

theorem claim_C5_witness :
    read_bits 43981 8 4 32 = Except.ok ((43981 >>> 4) % 2 ^ 8) ∧
    read_bits 43981 8 4 12 = Except.error ImageError.corruptedImage :=
  ⟨(claim_C5 43981 8 4 32 (by decide) (by decide)).1 (by decide),
   (claim_C5 43981 8 4 12 (by decide) (by decide)).2 (by decide)⟩

theorem seekCur_eval {p : Nat} {δ : Int} {q : Nat} (h : (p : Int) + δ = (q : Nat)) :
    seekCur p δ = .ok q := by
  unfold seekCur
  rw [if_pos (by omega)]
  congr 1
  omega

/-- One skipped segment of the JPEG marker scan: a non-SOF-at-depth-0
marker `m` whose 2-byte length is `s1 s2` moves the cursor to
`pos + 2 + (s1*256+s2)` with the depth updated by the `D8`/`D9` rule. -/
theorem jpegLoop_skip_step {d : List Nat} {pos : Nat} {m s1 s2 : Nat} {rest : List Nat}
    (h : d.drop pos = 255 :: m :: s1 :: s2 :: rest) (hp : pos ≤ d.length)
    {fuel : Nat} {depth : Int}
    (hnsof : ¬(Lib.is_sof m ∧ depth = 0))
    (depth' : Int)
    (hdep : (if m = 0xD8 then depth + 1 else if m = 0xD9 then depth - 1 else depth) = depth')
    (hge : 0 ≤ depth')
    (pos' : Nat) (hpos' : pos + 2 + (s1 * 256 + s2) = pos') :
    Lib.jpegLoop d (fuel + 1) pos depth = Lib.jpegLoop d fuel pos' depth' := by
  have hd := drop_len h hp
  simp only [List.length_cons] at hd
  rw [Lib.jpegLoop, readExact_of_drop h hp (by simp), ok_bind]
  simp only [List.take_succ_cons, List.take_zero]
  try dsimp only
  simp only [List.headD_cons, List.getD_cons_succ, List.getD_cons_zero]
  rw [if_neg (by simp), if_neg hnsof, hdep, if_neg (by omega)]
  have h2 : d.drop (pos + 2) = s1 :: s2 :: rest := by
    have hs := drop_shift h 2
    simpa using hs
  rw [read_u16_be_step h2 (by omega) _ rfl, ok_bind]
  rw [seekCur_eval (q := pos') (by push_cast; omega), ok_bind]

/-- The break of the JPEG marker scan: a SOF marker at depth 0 returns the
position 3 bytes past the marker length (the height field). -/
theorem jpegLoop_sof_break {d : List Nat} {pos : Nat} {m : Nat} {rest : List Nat}
    (h : d.drop pos = 255 :: m :: rest) (hp : pos ≤ d.length)
    {fuel : Nat} {depth : Int} (hsof : Lib.is_sof m) (hdep : depth = 0)
    (pos' : Nat) (hpos' : pos + 2 + 3 = pos') :
    Lib.jpegLoop d (fuel + 1) pos depth = .ok pos' := by
  rw [Lib.jpegLoop, readExact_of_drop h hp (by simp), ok_bind]
  simp only [List.take_succ_cons, List.take_zero]
  try dsimp only
  simp only [List.headD_cons, List.getD_cons_succ, List.getD_cons_zero]
  rw [if_neg (by simp), if_pos ⟨hsof, hdep⟩]
  exact seekCur_eval (by push_cast; omega)

/-- The depth-underflow rejection: an EOI marker at depth 0. -/
theorem jpegLoop_underflow {d : List Nat} {pos : Nat} {rest : List Nat}
    (h : d.drop pos = 255 :: 217 :: rest) (hp : pos ≤ d.length)
    {fuel : Nat} {depth : Int} (hdep : depth = 0) :
    Lib.jpegLoop d (fuel + 1) pos depth = .error .corruptedImage := by
  rw [Lib.jpegLoop, readExact_of_drop h hp (by simp), ok_bind]
  simp only [List.take_succ_cons, List.take_zero]
  try dsimp only
  simp only [List.headD_cons, List.getD_cons_succ, List.getD_cons_zero]
  rw [if_neg (by simp), if_neg (by simp [Lib.is_sof, hdep]), hdep]
  rw [if_pos (by decide)]

theorem ffd8Blocks_length (n : Nat) : (ffd8Blocks n).length = 4 * n := by
  induction n with
  | zero => rfl
  | succ k ih =>
    simp only [ffd8Blocks, List.length_cons, ih]
    omega

theorem ffd8Blocks_add (m n : Nat) : ffd8Blocks (m + n) = ffd8Blocks m ++ ffd8Blocks n := by
  induction m with
  | zero => simp [ffd8Blocks]
  | succ k ih =>
    rw [show k + 1 + n = (k + n) + 1 from by omega]
    simp only [ffd8Blocks, ih, List.cons_append]

/-- Pumping the unbounded-depth marker scan through `k` copies of
`FF D8 00 02`: position advances by `4k`, depth rises by `k`. -/
theorem jpegLoop_pump (d : List Nat) :
    ∀ (k pos : Nat) (depth : Int) (rest : List Nat) (fuel : Nat),
      d.drop pos = ffd8Blocks k ++ rest → pos ≤ d.length → 0 ≤ depth →
      Lib.jpegLoop d (fuel + k) pos depth =
        Lib.jpegLoop d fuel (pos + 4 * k) (depth + (k : Int)) := by
  intro k
  induction k with
  | zero =>
    intro pos depth rest fuel h hp hge
    simp
  | succ k ih =>
    intro pos depth rest fuel h hp hge
    rw [show ffd8Blocks (k + 1) = 255 :: 216 :: 0 :: 2 :: ffd8Blocks k from rfl] at h
    simp only [List.cons_append] at h
    have hd := drop_len h hp
    simp only [List.length_cons] at hd
    rw [show fuel + (k + 1) = (fuel + k) + 1 from by omega]
    rw [jpegLoop_skip_step h hp
      (by rintro ⟨hs, -⟩; exact absurd hs (by decide))
      (depth + 1) (by norm_num) (by omega) (pos + 4) (by norm_num)]
    have h4 : d.drop (pos + 4) = ffd8Blocks k ++ rest := by
      have hs := drop_shift h 4
      simpa using hs
    rw [ih (pos + 4) (depth + 1) rest fuel h4 (by omega) (by omega)]
    rw [show pos + 4 + 4 * k = pos + 4 * (k + 1) from by omega]
    rw [show depth + 1 + (k : Int) = depth + ((k + 1 : Nat) : Int) from by push_cast; ring]

/-- One `FF D8 00 02` step of the `i32`-checked scan below the overflow
threshold. -/
theorem jpegLoopChecked_d8_step {d : List Nat} {pos : Nat} {rest : List Nat}
    (h : d.drop pos = 255 :: 216 :: 0 :: 2 :: rest) (hp : pos ≤ d.length)
    {fuel : Nat} {depth : Int} (hge : 0 ≤ depth) (hlt : depth < 2147483647) :
    Lib.jpegLoopChecked d (fuel + 1) pos depth =
      Lib.jpegLoopChecked d fuel (pos + 4) (depth + 1) := by
  have hd := drop_len h hp
  simp only [List.length_cons] at hd
  rw [Lib.jpegLoopChecked, readExact_of_drop h hp (by simp)]
  simp only [List.take_succ_cons, List.take_zero]
  try dsimp only
  simp only [List.headD_cons, List.getD_cons_succ, List.getD_cons_zero]
  rw [if_neg (by simp)]
  rw [if_neg (by rintro ⟨hs, -⟩; exact absurd hs (by decide))]
  rw [if_neg (by rintro ⟨-, hdep⟩; omega)]
  simp only [if_true]
  rw [if_neg (by omega)]
  have h2 : d.drop (pos + 2) = 0 :: 2 :: rest := by
    have hs := drop_shift h 2
    simpa using hs
  rw [read_u16_be_step h2 (by omega) _ rfl]
  try dsimp only
  rw [seekCur_eval (q := pos + 4) (by push_cast; omega)]

/-- The panic of the `i32`-checked scan: incrementing depth at
`i32::MAX`. -/
theorem jpegLoopChecked_d8_panic {d : List Nat} {pos : Nat} {rest : List Nat}
    (h : d.drop pos = 255 :: 216 :: rest) (hp : pos ≤ d.length)
    {fuel : Nat} {depth : Int} (hmax : depth = 2147483647) :
    Lib.jpegLoopChecked d (fuel + 1) pos depth = none := by
  rw [Lib.jpegLoopChecked, readExact_of_drop h hp (by simp)]
  simp only [List.take_succ_cons, List.take_zero]
  try dsimp only
  simp only [List.headD_cons, List.getD_cons_succ, List.getD_cons_zero]
  rw [if_neg (by simp)]
  rw [if_neg (by rintro ⟨hs, -⟩; exact absurd hs (by decide))]
  rw [if_pos ⟨by norm_num, hmax⟩]

/-- Pumping the `i32`-checked marker scan through `k` copies of
`FF D8 00 02` while the depth counter stays within `i32`. -/
theorem jpegLoopChecked_pump (d : List Nat) :
    ∀ (k pos : Nat) (depth : Int) (rest : List Nat) (fuel : Nat),
      d.drop pos = ffd8Blocks k ++ rest → pos ≤ d.length →
      0 ≤ depth → depth + (k : Int) ≤ 2147483647 →
      Lib.jpegLoopChecked d (fuel + k) pos depth =
        Lib.jpegLoopChecked d fuel (pos + 4 * k) (depth + (k : Int)) := by
  intro k
  induction k with
  | zero =>
    intro pos depth rest fuel h hp hge hbound
    simp
  | succ k ih =>
    intro pos depth rest fuel h hp hge hbound
    rw [show ffd8Blocks (k + 1) = 255 :: 216 :: 0 :: 2 :: ffd8Blocks k from rfl] at h
    simp only [List.cons_append] at h
    have hd := drop_len h hp
    simp only [List.length_cons] at hd
    have hcast : ((k + 1 : Nat) : Int) = (k : Int) + 1 := by push_cast; ring
    rw [show fuel + (k + 1) = (fuel + k) + 1 from by omega]
    rw [jpegLoopChecked_d8_step h hp hge (by rw [hcast] at hbound; omega)]
    have h4 : d.drop (pos + 4) = ffd8Blocks k ++ rest := by
      have hs := drop_shift h 4
      simpa using hs
    rw [ih (pos + 4) (depth + 1) rest fuel h4 (by omega) (by omega)
      (by rw [hcast] at hbound; omega)]
    rw [show pos + 4 + 4 * k = pos + 4 * (k + 1) from by omega]
    rw [show depth + 1 + (k : Int) = depth + ((k + 1 : Nat) : Int) from by push_cast; ring]

/-- C1 counterexample: on the `2^33 + 2`-byte input `FF D8` followed by
`i32::MAX + 1` copies of the depth-raising segment `FF D8 00 02`, the
`i32`-faithful JPEG scan overflows its depth counter -- the checked model
panics (`none`) exactly where the unbounded-integer model would go on to
report the EOF error -- so overflowing arithmetic is reachable from the
entry points. -/
theorem jpeg_sizeChecked_none {d : List Nat}
    (h : Lib.jpegLoopChecked d (d.length + 1) 2 0 = none) :
    Lib.jpeg_sizeChecked d = none := by
  unfold Lib.jpeg_sizeChecked
  rw [h]

theorem jpeg_size_loop_error {d : List Nat} {e : ImageError}
    (h : Lib.jpegLoop d (d.length + 1) 2 0 = .error e) :
    Lib.jpeg_size d = .error e := by
  unfold Lib.jpeg_size
  rw [h, error_bind]

theorem claim_C1_counterexample :
    Lib.jpeg_sizeChecked overflowJpegInput = none ∧
    Lib.jpeg_size overflowJpegInput = Except.error (ImageError.ioError IOKind.unexpectedEof) := by
  have hlen : overflowJpegInput.length = 8589934594 := by
    show (255 :: 216 :: ffd8Blocks 2147483648).length = 8589934594
    rw [List.length_cons, List.length_cons, ffd8Blocks_length 2147483648]
  have hdrop2 : overflowJpegInput.drop 2 = ffd8Blocks 2147483648 := rfl
  have hsplit : overflowJpegInput.drop 2 = ffd8Blocks 2147483647 ++ ffd8Blocks 1 := by
    rw [hdrop2, ← ffd8Blocks_add]
  have hloopC : Lib.jpegLoopChecked overflowJpegInput (overflowJpegInput.length + 1) 2 0 = none := by
    rw [hlen]
    rw [show (8589934594 : Nat) + 1 = 6442450948 + 2147483647 from by norm_num]
    rw [jpegLoopChecked_pump overflowJpegInput 2147483647 2 (0 : Int) (ffd8Blocks 1)
      6442450948 hsplit (by rw [hlen]; norm_num) le_rfl (by norm_num)]
    rw [show 2 + 4 * 2147483647 = 8589934590 from by norm_num]
    rw [show (0 : Int) + ((2147483647 : Nat) : Int) = (2147483647 : Int) from by norm_num]
    have hdropF : overflowJpegInput.drop 8589934590 = 255 :: 216 :: 0 :: 2 :: [] := by
      have hs := drop_shift hsplit (4 * 2147483647)
      rw [List.drop_left' (ffd8Blocks_length 2147483647)] at hs
      rw [show 2 + 4 * 2147483647 = 8589934590 from by norm_num] at hs
      exact hs
    rw [show (6442450948 : Nat) = 6442450947 + 1 from by norm_num]
    rw [jpegLoopChecked_d8_panic hdropF (by rw [hlen]; norm_num) rfl]
  have hloopU : Lib.jpegLoop overflowJpegInput (overflowJpegInput.length + 1) 2 0 =
      Except.error (ImageError.ioError IOKind.unexpectedEof) := by
    rw [hlen]
    rw [show (8589934594 : Nat) + 1 = 6442450947 + 2147483648 from by norm_num]
    rw [jpegLoop_pump overflowJpegInput 2147483648 2 (0 : Int) []
      6442450947 (by simpa using hdrop2) (by rw [hlen]; norm_num) le_rfl]
    rw [show 2 + 4 * 2147483648 = 8589934594 from by norm_num]
    rw [show (6442450947 : Nat) = 6442450946 + 1 from by norm_num]
    rw [Lib.jpegLoop]
    rw [readExact_eof (by rw [hlen]; norm_num), error_bind]
  exact ⟨jpeg_sizeChecked_none hloopC, jpeg_size_loop_error hloopU⟩

/-- C2 counterexample: the TIFF parser rejects an IFD entry whose type
code is outside the known table -- an internally-inconsistent structural
value in already-read bytes -- with the `IoError(InvalidData)` kind, not
`CorruptedImage`. -/
theorem claim_C2_counterexample :
    Tiff.size tiffBadKind = Except.error (ImageError.ioError IOKind.invalidData) ∧
    (Except.error (ImageError.ioError IOKind.invalidData) : Except ImageError ImageSize) ≠
      Except.error ImageError.corruptedImage := by
  refine ⟨rfl, ?_⟩
  intro hc
  injection hc with h2
  cases h2

/-- C2 (amended): of the structural-inconsistency rejections, only an
under-8 box size seen by the `ipco` child scan and JPEG depth underflow
surface as `CorruptedImage`; an under-8 box size met by `skip_to_tag`
while walking to `meta`/`iprp`/`ipco` and an unknown IFD type code surface
as `IoError(InvalidData)`, and a scan ending without the mandatory `ispe`
surfaces as `IoError(UnexpectedEof)`. -/
theorem claim_C2 :
    Heif.size heifSmallBox = Except.error ImageError.corruptedImage ∧
    Lib.jpeg_size underflowJpeg = Except.error ImageError.corruptedImage ∧
    Heif.size heifBadSkip = Except.error (ImageError.ioError IOKind.invalidData) ∧
    Heif.size heifNoIspe = Except.error (ImageError.ioError IOKind.unexpectedEof) ∧
    Tiff.size tiffBadKind = Except.error (ImageError.ioError IOKind.invalidData) :=
  ⟨rfl, rfl, rfl, rfl, rfl⟩

/-- C9: the JPEG marker scan tracks nesting depth (incremented at an
embedded `FFD8`, decremented at `FFD9`); for any JPEG embedding a
thumbnail stream with its own SOF, the outer image's dimensions are
returned regardless of the thumbnail's; depth underflow is
`CorruptedImage`; and the SOF test accepts exactly `C0`-`CF` minus
`C4`, `C8`, `CC`. -/
theorem claim_C9 (ih il iw iw2 hh hl wh wl : Nat) :
    Lib.jpeg_size (thumbJpeg ih il iw iw2 hh hl wh wl) =
      Except.ok ⟨wh * 256 + wl, hh * 256 + hl⟩ ∧
    Lib.jpeg_size underflowJpeg = Except.error ImageError.corruptedImage ∧
    (∀ page : Nat, Lib.is_sof page ↔
      0xC0 ≤ page ∧ page ≤ 0xCF ∧ page ≠ 0xC4 ∧ page ≠ 0xC8 ∧ page ≠ 0xCC) := by
  refine ⟨?_, rfl, ?_⟩
  case refine_2 =>
    intro page
    unfold Lib.is_sof
    omega
  case refine_1 =>
    have hlen : (thumbJpeg ih il iw iw2 hh hl wh wl).length = 29 := by simp [thumbJpeg]
    have h2 : (thumbJpeg ih il iw iw2 hh hl wh wl).drop 2 =
        255 :: 216 :: 0 :: 2 :: (255 :: 192 :: 0 :: 8 :: 0 :: 0 :: ih :: il :: iw :: iw2 ::
        255 :: 217 :: 0 :: 2 :: 255 :: 192 :: 0 :: 0 :: 0 :: hh :: hl :: wh :: wl :: []) := by
      simp [thumbJpeg]
    have h6 : (thumbJpeg ih il iw iw2 hh hl wh wl).drop 6 =
        255 :: 192 :: 0 :: 8 :: (0 :: 0 :: ih :: il :: iw :: iw2 ::
        255 :: 217 :: 0 :: 2 :: 255 :: 192 :: 0 :: 0 :: 0 :: hh :: hl :: wh :: wl :: []) := by
      simp [thumbJpeg]
    have h16 : (thumbJpeg ih il iw iw2 hh hl wh wl).drop 16 =
        255 :: 217 :: 0 :: 2 :: (255 :: 192 :: 0 :: 0 :: 0 :: hh :: hl :: wh :: wl :: []) := by
      simp [thumbJpeg]
    have h20 : (thumbJpeg ih il iw iw2 hh hl wh wl).drop 20 =
        255 :: 192 :: (0 :: 0 :: 0 :: hh :: hl :: wh :: wl :: []) := by
      simp [thumbJpeg]
    have h25 : (thumbJpeg ih il iw iw2 hh hl wh wl).drop 25 =
        hh :: hl :: (wh :: wl :: []) := by
      simp [thumbJpeg]
    have h27 : (thumbJpeg ih il iw iw2 hh hl wh wl).drop 27 = wh :: wl :: ([] : List Nat) := by
      simp [thumbJpeg]
    unfold Lib.jpeg_size
    rw [hlen]
    rw [jpegLoop_skip_step h2 (by omega) (by decide) 1 (by decide) (by decide) 6 (by norm_num)]
    rw [show (29 : Nat) = 28 + 1 from rfl]
    rw [jpegLoop_skip_step h6 (by omega) (by decide) 1 (by decide) (by decide) 16 (by norm_num)]
    rw [show (28 : Nat) = 27 + 1 from rfl]
    rw [jpegLoop_skip_step h16 (by omega) (by decide) 0 (by decide) (by decide) 20 (by norm_num)]
    rw [show (27 : Nat) = 26 + 1 from rfl]
    rw [jpegLoop_sof_break h20 (by omega) (by decide) rfl 25 (by norm_num)]
    simp only [ok_bind]
    rw [read_u16_be_step h25 (by omega) _ rfl]
    simp only [ok_bind]
    try dsimp only
    norm_num
    rw [read_u16_be_step h27 (by omega) _ rfl]
    rfl

/-- C6 counterexample: `tiff::matches` on the 2-byte slice `b"II"` indexes
`header[2]` out of bounds (modelled as `none` = panic), so the matcher is
not total on arbitrary slices. -/
theorem claim_C6_counterexample : Tiff.matchesHdr [73, 73] = none := rfl

/-- C6 (amended): `matches` predicates are total on the 12-byte window the
dispatcher guarantees (any slice of length at least 4 suffices for TIFF);
but TIFF's `matches` indexes bytes 2 and 3 guarded only by its 2-3-byte
magic-prefix tests, so on shorter `II`/`MM\x00`-prefixed slices it panics
rather than returning a boolean (GIF's, by contrast, is total on all
slices by construction). -/
theorem claim_C6 (h : List Nat) (hl : 4 ≤ h.length) : (Tiff.matchesHdr h).isSome := by
  rcases h with _ | ⟨b0, _ | ⟨b1, _ | ⟨b2, _ | ⟨b3, t⟩⟩⟩⟩
  · simp at hl
  · simp at hl
  · simp at hl
  · simp at hl
  · unfold Tiff.matchesHdr
    simp only [List.getElem?_cons_zero, List.getElem?_cons_succ, List.take_succ_cons,
      List.take_zero]
    by_cases hA : [b0, b1] = [73, 73] <;> by_cases hB : b2 = 42 ∨ b2 = 43 <;>
      by_cases hC : [b0, b1, b2] = [77, 77, 0] <;> by_cases hD : b3 = 0 <;>
        simp [hA, hB, hC, hD]

theorem claim_C6_witness : (Tiff.matchesHdr [0, 0, 0, 0]).isSome :=
  claim_C6 [0, 0, 0, 0] (by decide)

/-- C10: every header of length at least 12 whose bytes 4..8 are `ftyp`
is accepted by the HEIF matcher with some compression tag -- never
declined -- and in particular a plain ISO-BMFF brand such as `isom` (an
MP4 file), or a structural brand whose extra-brand read hits end of
stream, yields `Compression::Unknown` rather than an error or a
non-match. -/
theorem claim_C10 (header d : List Nat) (pos : Nat) (hlen : 12 ≤ header.length)
    (hftyp : (header.drop 4).take 4 = [102, 116, 121, 112]) :
    (∃ c, Heif.matchesHdr header d pos = some c) ∧
    Heif.matchesHdr ftypIsomHeader [] 0 = some Heif.Compression.unknown ∧
    Heif.matchesHdr ftypMif1Header [] 0 = some Heif.Compression.unknown := by
  refine ⟨?_, rfl, rfl⟩
  have hne : Heif.matchesHdr header d pos ≠ none := by
    unfold Heif.matchesHdr
    rw [if_neg (by push_neg; exact ⟨by omega, hftyp⟩)]
    dsimp only
    cases h1 : Heif.inner_matches ((header.drop 8).take 4) with
    | some c => simp [h1]
    | none =>
      dsimp only
      split
      · cases h2 : readExact d pos 12 with
        | error e => simp
        | ok b =>
          cases h3 : Heif.inner_matches ((b.1.drop 4).take 4) with
          | some c => simp [h3]
          | none =>
            simp only [h3]
            split
            · cases h4 : Heif.inner_matches ((b.1.drop 8).take 4) <;> simp [h4]
            · simp
      · simp
  cases hx : Heif.matchesHdr header d pos with
  | none => exact absurd hx hne
  | some c => exact ⟨c, rfl⟩

theorem claim_C10_witness :
    (∃ c, Heif.matchesHdr ftypIsomHeader [] 0 = some c) ∧
    Heif.matchesHdr ftypIsomHeader [] 0 = some Heif.Compression.unknown ∧
    Heif.matchesHdr ftypMif1Header [] 0 = some Heif.Compression.unknown :=
  claim_C10 ftypIsomHeader [] 0 (by decide) (by decide)

/-- `skip_to_tag` finds its tag immediately when the cursor sits on a box
whose 4 tag bytes are exactly `tagB`. -/
theorem skipToTag_hit {d : List Nat} {p : Nat} {a b c e : Nat} {tagB rest : List Nat}
    (h : d.drop p = a :: b :: c :: e :: (tagB ++ rest)) (hp : p ≤ d.length)
    (htag : tagB.length = 4) {fuel : Nat} (hf : 1 ≤ fuel)
    (v : Nat) (hv : ((a * 256 + b) * 256 + c) * 256 + e = v) :
    Heif.skipToTag d tagB fuel p = .ok (v, p + 8) := by
  cases fuel with
  | zero => omega
  | succ f =>
    have hd := drop_len h hp
    simp only [List.length_cons, List.length_append] at hd
    rw [Heif.skipToTag]
    rw [read_u32_be_step h hp v hv, ok_bind]
    dsimp only
    have h4 : d.drop (p + 4) = tagB ++ rest := by
      have hs := drop_shift h 4
      simpa using hs
    rw [readExact_of_drop h4 (by omega) (by simp [htag]), ok_bind]
    have htake : (tagB ++ rest).take 4 = tagB := by
      rw [← htag]
      exact List.take_left tagB rest
    dsimp only
    rw [htake, if_pos rfl]
    have harith : p + 4 + 4 = p + 8 := by omega
    simp [pure, Except.pure, harith]

/-- Serialized items occupy at least one byte each. -/
theorem itemsBytes_length_ge (items : List IpcoItem) :
    items.length ≤ (itemsBytes items).length := by
  induction items with
  | nil => simp [itemsBytes]
  | cons i t ih =>
    simp only [itemsBytes, List.length_append, List.length_cons]
    have h1 : 1 ≤ (itemBytes i).length := by
      cases i <;> simp [itemBytes, u32be, ispeTag, irotTag]
    omega

/-- Decoding `u32be` digits recovers the value below `2^32`. -/
theorem be_u32be {w : Nat} (hw : w < 4294967296) :
    ((w / 16777216 % 256 * 256 + w / 65536 % 256) * 256 + w / 256 % 256) * 256 + w % 256
      = w := by
  omega

/-- Running the `ipco` child-box scan over the serialization of a list of
`ispe`/`irot` items from any starting state computes the items fold. -/
theorem ipcoLoop_items (d : List Nat) :
    ∀ (items : List IpcoItem) (p : Nat), d.drop p = itemsBytes items → p ≤ d.length →
      (∀ i ∈ items, itemOk i) →
      ∀ (fuel : Nat), items.length + 1 ≤ fuel →
      ∀ (ipc mw mh : Nat) (found : Bool) (rot : Nat),
        ipcoLoop d fuel p ipc mw mh found rot = .ok (runItems items (mw, mh, found, rot)) := by
  intro items
  induction items with
  | nil =>
    intro p h hp hok fuel hfuel ipc mw mh found rot
    cases fuel with
    | zero => omega
    | succ f =>
      have hd := drop_len h hp
      simp only [itemsBytes, List.length_nil] at hd
      simp only [ipcoLoop]
      rw [read_tag_eof (by omega)]
      rfl
  | cons i t ih =>
    intro p h hp hok fuel hfuel ipc mw mh found rot
    cases fuel with
    | zero => omega
    | succ f =>
      have hokt : ∀ j ∈ t, itemOk j := fun j hj => hok j (List.mem_cons_of_mem i hj)
      cases i with
      | ispe w ht =>
        obtain ⟨hw, hh⟩ := hok _ (List.mem_cons_self _ _)
        simp only [itemsBytes, itemBytes, u32be, ispeTag, List.cons_append,
          List.nil_append] at h
        norm_num at h
        have hd := drop_len h hp
        simp only [List.length_cons] at hd
        simp only [ipcoLoop]
        rw [read_tag_step h hp 20 (by norm_num)]
        dsimp only
        rw [if_neg (by norm_num), if_pos (show [105, 115, 112, 101] = ispeTag from rfl)]
        have h8 : d.drop (p + 8) =
            0 :: 0 :: 0 :: 0 ::
            (w / 16777216 % 256 :: w / 65536 % 256 :: w / 256 % 256 :: w % 256 ::
             ht / 16777216 % 256 :: ht / 65536 % 256 :: ht / 256 % 256 :: ht % 256 ::
             itemsBytes t) := by
          have hs := drop_shift h 8
          simpa using hs
        rw [read_u32_be_step h8 (by omega) _ rfl, ok_bind]
        dsimp only
        have h12 : d.drop (p + 8 + 4) =
            w / 16777216 % 256 :: w / 65536 % 256 :: w / 256 % 256 :: w % 256 ::
            (ht / 16777216 % 256 :: ht / 65536 % 256 :: ht / 256 % 256 :: ht % 256 ::
             itemsBytes t) := by
          have hs := drop_shift h 12
          have ha : p + 12 = p + 8 + 4 := by omega
          rw [ha] at hs
          simpa using hs
        rw [read_u32_be_step h12 (by omega) _ (be_u32be hw), ok_bind]
        dsimp only
        have h16 : d.drop (p + 8 + 4 + 4) =
            ht / 16777216 % 256 :: ht / 65536 % 256 :: ht / 256 % 256 :: ht % 256 ::
            itemsBytes t := by
          have hs := drop_shift h 16
          have ha : p + 16 = p + 8 + 4 + 4 := by omega
          rw [ha] at hs
          simpa using hs
        rw [read_u32_be_step h16 (by omega) _ (be_u32be hh), ok_bind]
        dsimp only
        have h20 : d.drop (p + 8 + 4 + 4 + 4) = itemsBytes t := by
          have hs := drop_shift h 20
          have ha : p + 20 = p + 8 + 4 + 4 + 4 := by omega
          rw [ha] at hs
          simpa using hs
        have hrun : runItems (IpcoItem.ispe w ht :: t) (mw, mh, found, rot) =
            runItems t (if w * ht > mw * mh then (w, ht, true, rot)
              else (mw, mh, true, rot)) := rfl
        rw [hrun]
        by_cases hcmp : w * ht > mw * mh
        · rw [if_pos hcmp, if_pos hcmp]
          exact ih _ h20 (by omega) hokt f (by simp at hfuel; omega) ipc w ht true rot
        · rw [if_neg hcmp, if_neg hcmp]
          exact ih _ h20 (by omega) hokt f (by simp at hfuel; omega) ipc mw mh true rot
      | irot r =>
        simp only [itemsBytes, itemBytes, u32be, irotTag, List.cons_append,
          List.nil_append] at h
        norm_num at h
        have hd := drop_len h hp
        simp only [List.length_cons] at hd
        simp only [ipcoLoop]
        rw [read_tag_step h hp 9 (by norm_num)]
        dsimp only
        rw [if_neg (by norm_num), if_neg (by decide), if_pos (show [105, 114, 111, 116] = irotTag from rfl)]
        have h8 : d.drop (p + 8) = r :: itemsBytes t := by
          have hs := drop_shift h 8
          simpa using hs
        rw [read_u8_step h8 (by omega), ok_bind]
        dsimp only
        have h9 : d.drop (p + 8 + 1) = itemsBytes t := by
          have hs := drop_shift h 9
          have ha : p + 9 = p + 8 + 1 := by omega
          rw [ha] at hs
          simpa using hs
        have hrun : runItems (IpcoItem.irot r :: t) (mw, mh, found, rot) =
            runItems t (mw, mh, found, r) := rfl
        rw [hrun]
        exact ih _ h9 (by omega) hokt f (by simp at hfuel; omega) ipc mw mh found r
/-- End-to-end evaluation of the HEIF parser on a built file: the result
is determined by the items fold (found flag, max-by-area pair, last
rotation, and the 90-or-270-degree swap). -/
theorem heif_size_eval (items : List IpcoItem) (hok : ∀ i ∈ items, itemOk i)
    (mw mh : Nat) (found : Bool) (rot : Nat)
    (hrun : runItems items (0, 0, false, 0) = (mw, mh, found, rot)) :
    Heif.size (heifFile items) =
      if !found then .error (.ioError .unexpectedEof)
      else if rot = 1 ∨ rot = 3 then .ok ⟨mh, mw⟩
      else .ok ⟨mw, mh⟩ := by
  have h0 : (heifFile items).drop 0 = 0 :: 0 :: 0 :: 8 :: 102 :: 116 :: 121 :: 112 :: 0 :: 0 :: 0 :: 16 :: 109 :: 101 :: 116 :: 97 :: 0 :: 0 :: 0 :: 0 :: 0 :: 0 :: 0 :: 16 :: 105 :: 112 :: 114 :: 112 :: (8 + (itemsBytes items).length) / 16777216 % 256 :: (8 + (itemsBytes items).length) / 65536 % 256 :: (8 + (itemsBytes items).length) / 256 % 256 :: (8 + (itemsBytes items).length) % 256 :: 105 :: 112 :: 99 :: 111 :: itemsBytes items := by
    simp [heifFile, heifHeader, u32be, metaTag, iprpTag, ipcoTag]
  have h8 : (heifFile items).drop 8 = 0 :: 0 :: 0 :: 16 :: (metaTag ++ (0 :: 0 :: 0 :: 0 :: 0 :: 0 :: 0 :: 16 :: 105 :: 112 :: 114 :: 112 :: (8 + (itemsBytes items).length) / 16777216 % 256 :: (8 + (itemsBytes items).length) / 65536 % 256 :: (8 + (itemsBytes items).length) / 256 % 256 :: (8 + (itemsBytes items).length) % 256 :: 105 :: 112 :: 99 :: 111 :: itemsBytes items)) := by
    simp [heifFile, heifHeader, u32be, metaTag, iprpTag, ipcoTag]
  have h16 : (heifFile items).drop 16 = 0 :: 0 :: 0 :: 0 :: 0 :: 0 :: 0 :: 16 :: 105 :: 112 :: 114 :: 112 :: (8 + (itemsBytes items).length) / 16777216 % 256 :: (8 + (itemsBytes items).length) / 65536 % 256 :: (8 + (itemsBytes items).length) / 256 % 256 :: (8 + (itemsBytes items).length) % 256 :: 105 :: 112 :: 99 :: 111 :: itemsBytes items := by
    simp [heifFile, heifHeader, u32be, metaTag, iprpTag, ipcoTag]
  have h20 : (heifFile items).drop 20 = 0 :: 0 :: 0 :: 16 :: (iprpTag ++ ((8 + (itemsBytes items).length) / 16777216 % 256 :: (8 + (itemsBytes items).length) / 65536 % 256 :: (8 + (itemsBytes items).length) / 256 % 256 :: (8 + (itemsBytes items).length) % 256 :: 105 :: 112 :: 99 :: 111 :: itemsBytes items)) := by
    simp [heifFile, heifHeader, u32be, metaTag, iprpTag, ipcoTag]
  have h28 : (heifFile items).drop 28 = (8 + (itemsBytes items).length) / 16777216 % 256 :: (8 + (itemsBytes items).length) / 65536 % 256 :: (8 + (itemsBytes items).length) / 256 % 256 :: (8 + (itemsBytes items).length) % 256 :: (ipcoTag ++ itemsBytes items) := by
    simp [heifFile, heifHeader, u32be, metaTag, iprpTag, ipcoTag]
  have h36 : (heifFile items).drop 36 = itemsBytes items := by
    simp [heifFile, heifHeader, u32be, metaTag, iprpTag, ipcoTag]
  have hlen : (heifFile items).length = 36 + (itemsBytes items).length := by
    simp [heifFile, heifHeader, u32be, metaTag, iprpTag, ipcoTag]
    omega
  have hfge := itemsBytes_length_ge items
  unfold Heif.size
  rw [hlen]
  rw [read_u32_be_step h0 (by omega) 8 (by norm_num), ok_bind]
  dsimp only
  rw [skipToTag_hit h8 (by omega) (by decide) (by omega) 16 (by norm_num), ok_bind]
  dsimp only
  rw [read_u32_be_step h16 (by omega) 0 (by norm_num), ok_bind]
  dsimp only
  rw [skipToTag_hit h20 (by omega) (by decide) (by omega) 16 (by norm_num), ok_bind]
  dsimp only
  rw [skipToTag_hit h28 (by omega) (by decide) (by omega) _ rfl, ok_bind]
  dsimp only
  rw [ipcoLoop_items (heifFile items) items 36 h36 (by omega) hok _ (by omega) _ 0 0 false 0]
  rw [hrun, ok_bind]
  rfl
/-- Running the scan over `ispe`-only items folds max-by-area over the
pairs, sets the found flag for a nonempty list, and keeps the rotation. -/
theorem runItems_ispe (pairs : List (Nat × Nat)) :
    ∀ (a b : Nat) (fd : Bool) (r : Nat),
      runItems (ispeItems pairs) (a, b, fd, r) =
        ((foldArea pairs (a, b)).1, (foldArea pairs (a, b)).2, fd || !pairs.isEmpty, r) := by
  induction pairs with
  | nil => intro a b fd r; simp [runItems, ispeItems, foldArea, itemsBytes]
  | cons q t ih =>
    intro a b fd r
    obtain ⟨w, h⟩ := q
    have hstep : runItems (ispeItems ((w, h) :: t)) (a, b, fd, r) =
        runItems (ispeItems t)
          (if w * h > a * b then (w, h, true, r) else (a, b, true, r)) := rfl
    rw [hstep]
    have hfold : foldArea ((w, h) :: t) (a, b) =
        foldArea t (if w * h > a * b then (w, h) else (a, b)) := by
      simp [foldArea]
    rw [hfold]
    by_cases hc : w * h > a * b
    · rw [if_pos hc, if_pos hc, ih w h true r]
      simp
    · rw [if_neg hc, if_neg hc, ih a b true r]
      simp

/-- The accumulator never beats the fold by area. -/
theorem foldArea_acc_le (pairs : List (Nat × Nat)) :
    ∀ acc : Nat × Nat, acc.1 * acc.2 ≤ (foldArea pairs acc).1 * (foldArea pairs acc).2 := by
  induction pairs with
  | nil => intro acc; simp [foldArea]
  | cons q t ih =>
    intro acc
    have hc : foldArea (q :: t) acc =
        foldArea t (if q.1 * q.2 > acc.1 * acc.2 then q else acc) := by
      simp [foldArea]
    rw [hc]
    by_cases hgt : q.1 * q.2 > acc.1 * acc.2
    · rw [if_pos hgt]; exact le_trans (le_of_lt hgt) (ih q)
    · rw [if_neg hgt]; exact ih acc

/-- Every listed pair's area is at most the fold's area. -/
theorem foldArea_mem_ge (pairs : List (Nat × Nat)) :
    ∀ (acc q : Nat × Nat), q ∈ pairs →
      q.1 * q.2 ≤ (foldArea pairs acc).1 * (foldArea pairs acc).2 := by
  induction pairs with
  | nil => intro acc q hq; simp at hq
  | cons p0 t ih =>
    intro acc q hq
    have hc : foldArea (p0 :: t) acc =
        foldArea t (if p0.1 * p0.2 > acc.1 * acc.2 then p0 else acc) := by
      simp [foldArea]
    rw [hc]
    rcases List.mem_cons.mp hq with rfl | hq2
    · by_cases hgt : q.1 * q.2 > acc.1 * acc.2
      · rw [if_pos hgt]; exact foldArea_acc_le t q
      · rw [if_neg hgt]
        exact le_trans (Nat.le_of_not_lt hgt) (foldArea_acc_le t acc)
    · split
      · exact ih _ q hq2
      · exact ih _ q hq2

/-- The fold is a listed pair or still the accumulator. -/
theorem foldArea_mem_or (pairs : List (Nat × Nat)) :
    ∀ acc, foldArea pairs acc ∈ pairs ∨ foldArea pairs acc = acc := by
  induction pairs with
  | nil => intro acc; exact Or.inr rfl
  | cons p0 t ih =>
    intro acc
    have hc : foldArea (p0 :: t) acc =
        foldArea t (if p0.1 * p0.2 > acc.1 * acc.2 then p0 else acc) := by
      simp [foldArea]
    rw [hc]
    by_cases hgt : p0.1 * p0.2 > acc.1 * acc.2
    · rw [if_pos hgt]
      rcases ih p0 with hm | he
      · exact Or.inl (List.mem_cons_of_mem _ hm)
      · left
        rw [he]
        exact List.mem_cons_self _ _
    · rw [if_neg hgt]
      rcases ih acc with hm | he
      · exact Or.inl (List.mem_cons_of_mem _ hm)
      · exact Or.inr he

/-- C7 (amended): for a HEIF file whose `ipco` holds several `ispe` boxes,
the parser returns the max-by-area fold of the listed dimensions (started
from `0×0`): its area dominates every listed pair's area, and as soon as
some listed pair has positive area the result is one of the listed pairs
(the max-by-area one), not the first; only when every scanned `ispe` has
zero area does the result degrade to `0×0`. -/
theorem claim_C7 (pairs : List (Nat × Nat)) (hne : pairs ≠ [])
    (hok : ∀ q ∈ pairs, q.1 < 2 ^ 32 ∧ q.2 < 2 ^ 32) :
    Heif.size (heifFile (ispeItems pairs)) =
      Except.ok ⟨(foldMaxPair pairs).1, (foldMaxPair pairs).2⟩ ∧
    (∀ q ∈ pairs, q.1 * q.2 ≤ (foldMaxPair pairs).1 * (foldMaxPair pairs).2) ∧
    ((∃ q ∈ pairs, 0 < q.1 * q.2) → foldMaxPair pairs ∈ pairs) := by
  refine ⟨?_, ?_, ?_⟩
  · have hok2 : ∀ i ∈ ispeItems pairs, itemOk i := by
      intro i hi
      simp only [ispeItems, List.mem_map] at hi
      obtain ⟨q, hq, rfl⟩ := hi
      exact hok q hq
    have hrun := runItems_ispe pairs 0 0 false 0
    rw [heif_size_eval (ispeItems pairs) hok2 _ _ _ _ hrun]
    have hfd : (false || !pairs.isEmpty) = true := by
      cases pairs
      · exact absurd rfl hne
      · simp
    rw [hfd]
    simp [foldMaxPair]
  · intro q hq
    exact foldArea_mem_ge pairs (0, 0) q hq
  · rintro ⟨q, hq, hpos⟩
    rcases foldArea_mem_or pairs (0, 0) with hm | he
    · exact hm
    · exfalso
      have hge := foldArea_mem_ge pairs (0, 0) q hq
      rw [he] at hge
      have hz : q.1 * q.2 ≤ 0 := hge
      omega

theorem claim_C7_witness :
    Heif.size (heifFile (ispeItems [(2, 3), (10, 10), (4, 4)])) =
      Except.ok ⟨(foldMaxPair [(2, 3), (10, 10), (4, 4)]).1,
                 (foldMaxPair [(2, 3), (10, 10), (4, 4)]).2⟩ ∧
    (∀ q ∈ [(2, 3), (10, 10), (4, 4)],
      q.1 * q.2 ≤ (foldMaxPair [(2, 3), (10, 10), (4, 4)]).1 *
        (foldMaxPair [(2, 3), (10, 10), (4, 4)]).2) ∧
    ((∃ q ∈ [(2, 3), (10, 10), (4, 4)], 0 < q.1 * q.2) →
      foldMaxPair [(2, 3), (10, 10), (4, 4)] ∈ [(2, 3), (10, 10), (4, 4)]) :=
  claim_C7 [(2, 3), (10, 10), (4, 4)] (by decide) (by decide)

/-- C7 counterexample: with a single scanned `ispe` of dimensions `0×5`
(zero area), the parser returns `0×0`, not the dimensions of the
maximum-area `ispe` box it scanned. -/
theorem claim_C7_counterexample :
    Heif.size (heifFile (ispeItems [(0, 5)])) = Except.ok ⟨0, 0⟩ ∧
    (⟨0, 0⟩ : ImageSize) ≠ ⟨0, 5⟩ :=
  ⟨rfl, by decide⟩

/-- C8 (amended): for an `ispe` of positive area `W*H` followed by an
`irot` with rotation `r < 4`, the parser swaps width and height exactly
when `r` is 1 or 3 (90 or 270 degrees) and returns them unchanged when
`r` is 0 or 2; for a zero-area `ispe` the tracked pair is `0×0` instead. -/
theorem claim_C8 (W H r : Nat) (hW : W < 2 ^ 32) (hH : H < 2 ^ 32) (hr : r < 4)
    (harea : 0 < W * H) :
    Heif.size (heifFile [IpcoItem.ispe W H, IpcoItem.irot r]) =
      if r = 1 ∨ r = 3 then Except.ok ⟨H, W⟩ else Except.ok ⟨W, H⟩ := by
  have hok : ∀ i ∈ [IpcoItem.ispe W H, IpcoItem.irot r], itemOk i := by
    intro i hi
    rcases List.mem_cons.mp hi with rfl | hi2
    · exact ⟨hW, hH⟩
    · rcases List.mem_cons.mp hi2 with rfl | hi3
      · show r < 256
        omega
      · simp at hi3
  have h1 : itemStep (0, 0, false, 0) (IpcoItem.ispe W H) = (W, H, true, 0) := by
    dsimp [itemStep]
    rw [if_pos (by simpa using harea)]
  have hrun : runItems [IpcoItem.ispe W H, IpcoItem.irot r] (0, 0, false, 0) =
      (W, H, true, r) := by
    simp only [runItems, List.foldl_cons, List.foldl_nil, h1]
    rfl
  rw [heif_size_eval _ hok _ _ _ _ hrun]
  by_cases hrot : r = 1 ∨ r = 3
  · rw [if_pos hrot]
    rfl
  · rw [if_neg hrot]
    rfl

theorem claim_C8_witness :
    Heif.size (heifFile [IpcoItem.ispe 3 7, IpcoItem.irot 1]) =
      if 1 = 1 ∨ 1 = 3 then Except.ok ⟨7, 3⟩ else Except.ok ⟨3, 7⟩ :=
  claim_C8 3 7 1 (by decide) (by decide) (by decide) (by decide)

/-- C8 counterexample: `ispe = (0,5)` with `irot = 2` should, by the
claim, return `{0,5}` unchanged, but the parser returns `{0,0}`. -/
theorem claim_C8_counterexample :
    Heif.size (heifFile [IpcoItem.ispe 0 5, IpcoItem.irot 2]) = Except.ok ⟨0, 0⟩ ∧
    (⟨0, 0⟩ : ImageSize) ≠ ⟨0, 5⟩ :=
  ⟨rfl, by decide⟩
end Imagesize
